import Mathlib

/-!
# Formal model of `wiki_dump_extractor`'s date extraction

A shallow embedding of `src/wiki_dump_extractor/date_utils.py`:
the seven regex-based date format matchers, the `list_dates` /
`extract_dates` drivers with their exception handling, and (modelled from
the specification, since the class is absent from the sources even though
the test-suite imports it) the `DateRange` string parser and renderer.

Text is represented as `List Char`.  Each compiled regular expression of
the source is hand-compiled into a backtracking matcher over `List Char`
that follows Python `re` semantics for that concrete pattern: leftmost
match wins, quantifiers are greedy and backtrack longest-first, `\b` is a
word boundary, `(?!...)` a negative lookahead, and `finditer` resumes
scanning at the end of each match.  At the few places where a greedy run
cannot interact with its continuation (for instance `\s+` followed by a
letter or digit) the matcher commits to the maximal run; each such spot is
justified in a comment.
-/

/-! ## Character classes (ASCII fragment of Python's `\d`, `\w`, `\s`) -/

def isDigitC (c : Char) : Bool := c.isDigit

def isWordC (c : Char) : Bool := c.isAlphanum || c = '_'

def isSpaceC (c : Char) : Bool :=
  c = ' ' || c = '\t' || c = '\n' || c = '\r' || c = '\x0b' || c = '\x0c'

def isCommaSpaceC (c : Char) : Bool := c = ',' || isSpaceC c

def isAsciiLetterC (c : Char) : Bool :=
  ('a' ≤ c && c ≤ 'z') || ('A' ≤ c && c ≤ 'Z')

/-- Case-insensitive character comparison (re.IGNORECASE). -/
def ciEqC (a b : Char) : Bool := a.toLower = b.toLower

/-- Does `pat` case-insensitively begin `cs`? -/
def ciBegins : List Char → List Char → Bool
  | [], _ => true
  | _ :: _, [] => false
  | p :: ps, c :: rs => ciEqC p c && ciBegins ps rs

/-! ## A regex match and the generic `finditer` scan -/

/-- One regex match: the matched text (`group(0)`), the capture groups
(`None` groups as `none`), and the rest of the input after the match. -/
structure RMatch where
  mtext : List Char
  groups : List (Option (List Char))
  rest : List Char
deriving DecidableEq, Repr

/-- Result of attempting a pattern at one position: matched chars, groups,
remaining input. -/
abbrev TryRes := List Char × List (Option (List Char)) × List Char

/-- `re.finditer`: try the pattern at each position, left to right; on a hit
record the match and resume after it (all our patterns consume at least one
character).  `prev` is the character before the current position, for `\b`.
Fuel is structural; `length + 1` always suffices. -/
def scanF (tryAt : Option Char → List Char → Option TryRes) :
    Nat → Option Char → List Char → List RMatch
  | 0, _, _ => []
  | fuel + 1, prev, cs =>
    match tryAt prev cs with
    | some (mt, gs, rest) =>
        ⟨mt, gs, rest⟩ :: scanF tryAt fuel (mt.getLastD ' ') rest
    | none =>
      match cs with
      | [] => []
      | c :: cs' => scanF tryAt fuel (some c) cs'

def finditerF (tryAt : Option Char → List Char → Option TryRes)
    (text : List Char) : List RMatch :=
  scanF tryAt (text.length + 1) none text

/-- Is the previous character a word character (for `\b` checks)? -/
def prevIsWord : Option Char → Bool
  | none => false
  | some c => isWordC c

/-! ## Matcher combinators (continuation style, `Option.orElse` = regex
backtracking alternatives tried in order) -/

/-- Greedy `\d{1,2}`: try two digits, then one. -/
def dTwoOne (cs : List Char) (k : List Char → List Char → Option α) :
    Option α :=
  match cs with
  | c1 :: c2 :: rest =>
    if isDigitC c1 then
      if isDigitC c2 then (k [c1, c2] rest).orElse fun _ => k [c1] (c2 :: rest)
      else k [c1] (c2 :: rest)
    else none
  | [c1] => if isDigitC c1 then k [c1] [] else none
  | [] => none

/-- Exactly `n` digits (`\d{n}` for a fixed `n`). -/
def dExact (n : Nat) (cs : List Char) (k : List Char → List Char → Option α) :
    Option α :=
  let run := cs.take n
  if run.length = n && run.all isDigitC then k run (cs.drop n) else none

/-- One `[-\x2f]` separator character. -/
def sepDashSlash (cs : List Char) (k : Char → List Char → Option α) :
    Option α :=
  match cs with
  | c :: rest => if c = '-' || c = '/' then k c rest else none
  | [] => none

/-! ## `SlashDMYMDYFormat`: `\b\d{1,2}[-\x2f]\d{1,2}[-\x2f]\d{4}\b(?![-\x2f])` -/

/-- After the four year digits: `\b` (next char absent or non-word) and the
negative lookahead `(?![-\x2f])`. -/
def slashEndOk : List Char → Bool
  | [] => true
  | c :: _ => !isWordC c && c ≠ '-' && c ≠ '/'

def slashTryAt (prev : Option Char) (cs : List Char) : Option TryRes :=
  if prevIsWord prev then none else
  dTwoOne cs fun a r1 =>
    sepDashSlash r1 fun s1 r2 =>
      dTwoOne r2 fun b r3 =>
        sepDashSlash r3 fun s2 r4 =>
          dExact 4 r4 fun y r5 =>
            if slashEndOk r5 then
              some (a ++ [s1] ++ b ++ [s2] ++ y, [], r5)
            else none

/-! ## `DashYMDFormat`: `\b\d{4}[-\x2f]\d{1,2}[-\x2f]\d{1,2}\b` -/

/-- Trailing `(\d{1,2})\b`: a run of one or two digits whose following
character is absent or non-word.  (A run of three or more digits cannot
match: after backtracking the next character is always a digit.) -/
def dTwoOneEnd (cs : List Char) (k : List Char → List Char → Option α) :
    Option α :=
  let run := cs.takeWhile isDigitC
  if run.length = 1 || run.length = 2 then
    match cs.drop run.length with
    | [] => k run []
    | c :: rest => if isWordC c then none else k run (c :: rest)
  else none

def dashTryAt (prev : Option Char) (cs : List Char) : Option TryRes :=
  if prevIsWord prev then none else
  dExact 4 cs fun y r1 =>
    sepDashSlash r1 fun s1 r2 =>
      dTwoOne r2 fun a r3 =>
        sepDashSlash r3 fun s2 r4 =>
          dTwoOneEnd r4 fun b r5 =>
            some (y ++ [s1] ++ a ++ [s2] ++ b, [], r5)

/-! ## Month vocabulary (from `_MONTH_MAP` / `_MONTHS_PATTERN`) -/

/-- The alternation `_MONTHS_PATTERN`, in the source's order (full names
first, then the three-letter abbreviations, which omit `May`). -/
def monthsPattern : List (List Char) :=
  ["January".data, "February".data, "March".data, "April".data, "May".data,
   "June".data, "July".data, "August".data, "September".data, "October".data,
   "November".data, "December".data,
   "Jan".data, "Feb".data, "Mar".data, "Apr".data, "Jun".data, "Jul".data,
   "Aug".data, "Sep".data, "Oct".data, "Nov".data, "Dec".data]

/-- `_MONTH_MAP`: lowercase month name/abbreviation to month number. -/
def monthMap : List (List Char × Nat) :=
  [("january".data, 1), ("jan".data, 1), ("february".data, 2),
   ("feb".data, 2), ("march".data, 3), ("mar".data, 3), ("april".data, 4),
   ("apr".data, 4), ("may".data, 5), ("june".data, 6), ("jun".data, 6),
   ("july".data, 7), ("jul".data, 7), ("august".data, 8), ("aug".data, 8),
   ("september".data, 9), ("sep".data, 9), ("october".data, 10),
   ("oct".data, 10), ("november".data, 11), ("nov".data, 11),
   ("december".data, 12), ("dec".data, 12)]

/-- `_WRITTEN_NUMBERS`: written ordinal day-words to day numbers. -/
def writtenNumbers : List (List Char × Nat) :=
  [("first".data, 1), ("second".data, 2), ("third".data, 3),
   ("fourth".data, 4), ("fifth".data, 5), ("sixth".data, 6),
   ("seventh".data, 7), ("eighth".data, 8), ("ninth".data, 9),
   ("tenth".data, 10), ("eleventh".data, 11), ("twelfth".data, 12),
   ("thirteenth".data, 13), ("fourteenth".data, 14), ("fifteenth".data, 15),
   ("sixteenth".data, 16), ("seventeenth".data, 17), ("eighteenth".data, 18),
   ("nineteenth".data, 19), ("twentieth".data, 20),
   ("twenty-first".data, 21), ("twenty-second".data, 22),
   ("twenty-third".data, 23), ("twenty-fourth".data, 24),
   ("twenty-fifth".data, 25), ("twenty-sixth".data, 26),
   ("twenty-seventh".data, 27), ("twenty-eighth".data, 28),
   ("twenty-ninth".data, 29), ("thirtieth".data, 30),
   ("thirty-first".data, 31)]

def lookupCL : List (List Char × Nat) → List Char → Option Nat
  | [], _ => none
  | (k, v) :: rest, s => if s = k then some v else lookupCL rest s

/-- The month-name alternation, case-insensitive, alternatives tried in the
source's order; each successful alternative's continuation may veto it
(regex backtracking across `|`). -/
def monthAltGo (names : List (List Char)) (cs : List Char)
    (k : List Char → List Char → Option α) : Option α :=
  match names with
  | [] => none
  | n :: ns =>
    if ciBegins n cs then
      (k (cs.take n.length) (cs.drop n.length)).orElse fun _ =>
        monthAltGo ns cs k
    else monthAltGo ns cs k

def monthAlt (cs : List Char) (k : List Char → List Char → Option α) :
    Option α :=
  monthAltGo monthsPattern cs k

/-- `\s+` whose continuation starts with a letter or digit: the maximal run
is the only length that can succeed, so no backtracking is needed. -/
def wsPlus (cs : List Char) (k : List Char → List Char → Option α) :
    Option α :=
  let run := cs.takeWhile isSpaceC
  if run.isEmpty then none else k run (cs.drop run.length)

/-- `[,\s]+` whose continuation starts with a digit: maximal run only. -/
def commaSpacePlus (cs : List Char) (k : List Char → List Char → Option α) :
    Option α :=
  let run := cs.takeWhile isCommaSpaceC
  if run.isEmpty then none else k run (cs.drop run.length)

/-- Trailing `(\d{2,4})\b`: the digit run must have length 2 to 4 and be
followed by end-of-input or a non-word character (shorter greedy
alternatives are always followed by a digit, so they all fail `\b`). -/
def dTwoFourEnd (cs : List Char) (k : List Char → List Char → Option α) :
    Option α :=
  let run := cs.takeWhile isDigitC
  if 2 ≤ run.length && run.length ≤ 4 then
    match cs.drop run.length with
    | [] => k run []
    | c :: rest => if isWordC c then none else k run (c :: rest)
  else none

/-- `(?:st|nd|rd|th)?`, case-insensitive, greedy: try with the suffix
first, then without. -/
def ordSuffix (cs : List Char) (k : List Char → List Char → Option α) :
    Option α :=
  (if ciBegins "st".data cs then k (cs.take 2) (cs.drop 2) else none).orElse
    fun _ =>
  (if ciBegins "nd".data cs then k (cs.take 2) (cs.drop 2) else none).orElse
    fun _ =>
  (if ciBegins "rd".data cs then k (cs.take 2) (cs.drop 2) else none).orElse
    fun _ =>
  (if ciBegins "th".data cs then k (cs.take 2) (cs.drop 2) else none).orElse
    fun _ => k [] cs

/-! ## `DayMonthYearFormat`:
`\b(\d{1,2})\s+(<months>)[,\s]+(\d{2,4})\b`, IGNORECASE -/

def dmyTryAt (prev : Option Char) (cs : List Char) : Option TryRes :=
  if prevIsWord prev then none else
  dTwoOne cs fun day r1 =>
    wsPlus r1 fun w1 r2 =>
      monthAlt r2 fun mon r3 =>
        commaSpacePlus r3 fun w2 r4 =>
          dTwoFourEnd r4 fun yr r5 =>
            some (day ++ w1 ++ mon ++ w2 ++ yr,
                  [some day, some mon, some yr], r5)

/-! ## `MonthDayYearFormat`:
`\b(<months>)\s+(\d{1,2})(?:st|nd|rd|th)?[,\s]+(\d{2,4})\b`, IGNORECASE -/

def mdyTryAt (prev : Option Char) (cs : List Char) : Option TryRes :=
  if prevIsWord prev then none else
  monthAlt cs fun mon r1 =>
    wsPlus r1 fun w1 r2 =>
      dTwoOne r2 fun day r3 =>
        ordSuffix r3 fun suf r4 =>
          commaSpacePlus r4 fun w2 r5 =>
            dTwoFourEnd r5 fun yr r6 =>
              some (mon ++ w1 ++ day ++ suf ++ w2 ++ yr,
                    [some mon, some day, some yr], r6)

/-! ## `MonthYearFormat`: `\b(<months>)\s+(\d{2, 4})\b`, IGNORECASE

The source's quantifier `{2, 4}` contains a space, which Python's `re`
does not accept as a repeat; the braces are therefore matched literally:
the group is one digit followed by the six characters `{2, 4}`.  The
final `\b` sits after the non-word `}`, so it demands a following word
character. -/

def monthYearLit : List Char := "{2, 4}".data

def monthYearTryAt (prev : Option Char) (cs : List Char) : Option TryRes :=
  if prevIsWord prev then none else
  monthAlt cs fun mon r1 =>
    wsPlus r1 fun w1 r2 =>
      match r2 with
      | d :: r3 =>
        if isDigitC d && ciBegins monthYearLit r3 then
          match r3.drop monthYearLit.length with
          | [] => none
          | c :: rest =>
            if isWordC c then
              some (mon ++ w1 ++ (d :: monthYearLit),
                    [some mon, some (d :: monthYearLit)], c :: rest)
            else none
        else none
      | [] => none

/-! ## `WrittenDateFormat`:
`\b(<months>)\s+the\s+(?:(\d{1,2})(?:st|nd|rd|th)?|([a-z]+))[,\s]+(\d{2,4})\b`,
IGNORECASE -/

/-- Case-insensitive literal. -/
def ciLit (pat : List Char) (cs : List Char)
    (k : List Char → List Char → Option α) : Option α :=
  if ciBegins pat cs then k (cs.take pat.length) (cs.drop pat.length)
  else none

/-- The day alternation: a numeric day with optional ordinal suffix, or a
written-out word (`[a-z]+` under IGNORECASE is a maximal ASCII-letter run;
maximal is exact because the continuation `[,\s]+` cannot start with a
letter).  The continuation receives the consumed text and the two capture
groups (exactly one of them is set). -/
def dayAlt (cs : List Char)
    (k : List Char → Option (List Char) → Option (List Char) → List Char →
         Option α) : Option α :=
  (dTwoOne cs fun dd r1 =>
    ordSuffix r1 fun suf r2 => k (dd ++ suf) (some dd) none r2).orElse
  fun _ =>
    if (cs.takeWhile isAsciiLetterC).isEmpty then none
    else k (cs.takeWhile isAsciiLetterC) none (some (cs.takeWhile isAsciiLetterC))
      (cs.drop (cs.takeWhile isAsciiLetterC).length)

def writtenTryAt (prev : Option Char) (cs : List Char) : Option TryRes :=
  if prevIsWord prev then none else
  monthAlt cs fun mon r1 =>
    wsPlus r1 fun w1 r2 =>
      ciLit "the".data r2 fun the r3 =>
        wsPlus r3 fun w2 r4 =>
          dayAlt r4 fun dtxt g1 g2 r5 =>
            commaSpacePlus r5 fun w3 r6 =>
              dTwoFourEnd r6 fun yr r7 =>
                some (mon ++ w1 ++ the ++ w2 ++ dtxt ++ w3 ++ yr,
                      [some mon, g1, g2, some yr], r7)

/-! ## `WikiDateFormat`: `{{.*\|(\d{4})\|(\d{1,2})\|(\d{1,2})`, IGNORECASE

`.*` is greedy and `.` excludes newlines, so the engine commits to the
rightmost position after `{{` at which the pipe-separated tail can match,
with no newline skipped over. -/

/-- The tail `\|(\d{4})\|(\d{1,2})\|(\d{1,2})` at the current position:
returns consumed text, remaining input and the three captures. -/
def wikiTail (cs : List Char) :
    Option (List Char × List Char × List Char × List Char × List Char) :=
  match cs with
  | '|' :: r1 =>
    dExact 4 r1 fun y r2 =>
      match r2 with
      | '|' :: r3 =>
        dTwoOne r3 fun m r4 =>
          match r4 with
          | '|' :: r5 =>
            dTwoOne r5 fun d r6 =>
              some ('|' :: y ++ '|' :: m ++ '|' :: d, r6, y, m, d)
          | _ => none
      | _ => none
  | _ => none

/-- Is `j` a valid amount for `.*` to consume: no newline skipped and the
tail matches right after. -/
def wikiOkAt (seg : List Char) (j : Nat) : Bool :=
  (seg.take j).all (fun c => c ≠ '\n') && (wikiTail (seg.drop j)).isSome

/-- Greedy `.*`: the largest `j ≤ n` accepted by `p`, found by scanning
downward (exactly the backtracking order of the regex engine). -/
def findTopdown (p : Nat → Bool) : Nat → Option Nat
  | 0 => if p 0 then some 0 else none
  | n + 1 => if p (n + 1) then some (n + 1) else findTopdown p n

/-- The amount of text `.*` consumes inside a wiki-template match starting
at `cs`, if any. -/
def wikiChosen (cs : List Char) : Option Nat :=
  match cs with
  | '{' :: '{' :: seg => findTopdown (wikiOkAt seg) seg.length
  | _ => none

def wikiTryAt (_prev : Option Char) (cs : List Char) : Option TryRes :=
  match cs with
  | '{' :: '{' :: seg =>
    match wikiChosen ('{' :: '{' :: seg) with
    | none => none
    | some j =>
      match wikiTail (seg.drop j) with
      | none => none
      | some (tl, rest, y, m, d) =>
        some ('{' :: '{' :: (seg.take j ++ tl),
              [some y, some m, some d], rest)
  | _ => none

/-! ## Python-side values: exceptions, `int()`, `datetime` -/

/-- The Python exceptions the model distinguishes.  Everything the date
code raises on its own carries a `ValueError`; the other constructors
exist so that the `except ValueError` in `list_dates` is a real filter
(`IndexError` appears in `SlashDMYMDYFormat`'s inner `except` clause, and
`AttributeError` is what `WrittenDateFormat` would raise on a match with
neither day group set). -/
inductive PyExc where
  | valueError (msg : List Char)
  | indexError
  | attributeError
deriving DecidableEq, Repr

/-- A `datetime.datetime` restricted to its date fields (the source never
sets a time). -/
structure DT where
  year : Nat
  month : Nat
  day : Nat
deriving DecidableEq, Repr

/-- Python `int(s)` on a string: optional surrounding whitespace, optional
sign, at least one digit; otherwise `ValueError`.  (The error message is
abridged; no claim depends on its wording.) -/
def digitsVal (ds : List Char) : Nat :=
  ds.foldl (fun a c => 10 * a + (c.toNat - 48)) 0

def pyInt (s : List Char) : Except PyExc Int :=
  let t := (s.dropWhile isSpaceC).reverse.dropWhile isSpaceC |>.reverse
  match t with
  | '-' :: ds =>
    if !ds.isEmpty && ds.all isDigitC then .ok (-(digitsVal ds : Int))
    else .error (.valueError ("invalid literal for int: ".data ++ s))
  | '+' :: ds =>
    if !ds.isEmpty && ds.all isDigitC then .ok (digitsVal ds : Int)
    else .error (.valueError ("invalid literal for int: ".data ++ s))
  | ds =>
    if !ds.isEmpty && ds.all isDigitC then .ok (digitsVal ds : Int)
    else .error (.valueError ("invalid literal for int: ".data ++ s))

/-- Gregorian leap year, as `datetime` computes it. -/
def isLeap (y : Int) : Bool :=
  y % 4 = 0 && (y % 100 ≠ 0 || y % 400 = 0)

def daysInMonth (y : Int) (m : Nat) : Nat :=
  if m = 2 then (if isLeap y then 29 else 28)
  else if m = 4 || m = 6 || m = 9 || m = 11 then 30
  else 31

/-- Validity of `datetime(year, month, day)` arguments: `datetime.MINYEAR
= 1`, `datetime.MAXYEAR = 9999`. -/
def dtValid (y m d : Int) : Bool :=
  1 ≤ y && y ≤ 9999 && 1 ≤ m && m ≤ 12 && 1 ≤ d &&
    d ≤ (daysInMonth y m.toNat : Int)

/-- `datetime(year, month, day)`: the constructed value, or `ValueError`.
(The error message is abridged.) -/
def mkDatetime (y m d : Int) : Except PyExc DT :=
  if dtValid y m d then .ok ⟨y.toNat, m.toNat, d.toNat⟩
  else .error (.valueError "bad datetime field".data)

/-- `DateFormat.convert_month_to_number`. -/
def convertMonthToNumber (s : List Char) : Except PyExc Nat :=
  match lookupCL monthMap (s.map Char.toLower) with
  | some m => .ok m
  | none => .error (.valueError ("Unknown month name: ".data ++ s))

/-- Catch `(ValueError, IndexError)` (the inner `except` clause of
`SlashDMYMDYFormat.match_to_datetime`). -/
def catchVI (x : Except PyExc α) (h : Unit → Except PyExc α) :
    Except PyExc α :=
  match x with
  | .ok v => .ok v
  | .error (.valueError _) => h ()
  | .error .indexError => h ()
  | .error e => .error e

/-- `re.split(r"[-\x2f]", s)`. -/
def splitDashSlash (s : List Char) : List (List Char) :=
  match s with
  | [] => [[]]
  | c :: rest =>
    let r := splitDashSlash rest
    if c = '-' || c = '/' then [] :: r
    else
      match r with
      | h :: t => (c :: h) :: t
      | [] => [[c]]

/-! ## The `match_to_datetime` conversions

Each returns `ok (some dt)`, `ok none` (the source's `return None`), or an
exception.  The bind order follows the source's evaluation order. -/

/-- `SlashDMYMDYFormat.match_to_datetime`: try month-first
(`datetime(int(parts[2]), int(parts[0]), int(parts[1]))`), on
`ValueError`/`IndexError` retry day-first, on a second failure
`return None`. -/
def slashToDT (m : RMatch) : Except PyExc (Option DT) :=
  let parts := splitDashSlash m.mtext
  match parts with
  | [p0, p1, p2] =>
    catchVI
      (do
        let y ← pyInt p2
        let a ← pyInt p0
        let b ← pyInt p1
        let dt ← mkDatetime y a b
        pure (some dt))
      fun _ =>
        catchVI
          (do
            let y ← pyInt p2
            let b ← pyInt p1
            let a ← pyInt p0
            let dt ← mkDatetime y b a
            pure (some dt))
          fun _ => .ok none
  | _ => .error (.valueError ("Invalid slash date format: ".data ++ m.mtext))

/-- `DashYMDFormat.match_to_datetime`. -/
def dashToDT (m : RMatch) : Except PyExc (Option DT) :=
  let parts := splitDashSlash m.mtext
  match parts with
  | [p0, p1, p2] =>
    catchVI
      (do
        let y ← pyInt p0
        let a ← pyInt p1
        let b ← pyInt p2
        let dt ← mkDatetime y a b
        pure (some dt))
      fun _ => .ok none
  | _ => .error (.valueError ("Invalid dash date format: ".data ++ m.mtext))

/-- `DayMonthYearFormat.match_to_datetime`: groups are
`(day, month_str, year)`; a wrongly-shaped group tuple would fail Python's
unpacking with a `ValueError`. -/
def dmyToDT (m : RMatch) : Except PyExc (Option DT) :=
  match m.groups with
  | [some day, some monthStr, some year] => do
    let mo ← convertMonthToNumber monthStr
    let y ← pyInt year
    let d ← pyInt day
    let dt ← mkDatetime y mo d
    pure (some dt)
  | _ => .error (.valueError "cannot unpack groups".data)

/-- `MonthDayYearFormat.match_to_datetime`: groups are
`(month_str, day, year)`. -/
def mdyToDT (m : RMatch) : Except PyExc (Option DT) :=
  match m.groups with
  | [some monthStr, some day, some year] => do
    let mo ← convertMonthToNumber monthStr
    let y ← pyInt year
    let d ← pyInt day
    let dt ← mkDatetime y mo d
    pure (some dt)
  | _ => .error (.valueError "cannot unpack groups".data)

/-- `MonthYearFormat.match_to_datetime`: groups are `(month_str, year)`;
the day defaults to 1. -/
def monthYearToDT (m : RMatch) : Except PyExc (Option DT) :=
  match m.groups with
  | [some monthStr, some year] => do
    let mo ← convertMonthToNumber monthStr
    let y ← pyInt year
    let dt ← mkDatetime y mo 1
    pure (some dt)
  | _ => .error (.valueError "cannot unpack groups".data)

/-- The day computation of `WrittenDateFormat.match_to_datetime`: a
numeric day group is `int()`-parsed, otherwise the written day-word is
looked up (unknown words raise the source's `ValueError`); with neither
group set, `groups[2].lower()` would dereference `None`
(`AttributeError`). -/
def writtenDay (g1 g2 : Option (List Char)) (mtext : List Char) :
    Except PyExc Int :=
  match g1 with
  | some dd => pyInt dd
  | none =>
    match g2 with
    | some w =>
      match lookupCL writtenNumbers (w.map Char.toLower) with
      | some n => pure (n : Int)
      | none =>
        .error (.valueError
          ("Unsupported written day number: ".data ++ mtext))
    | none => .error .attributeError

/-- `int(groups[3])`; a `None` year would be a `TypeError`-class failure,
modelled as `attributeError` (the shape lemma shows it cannot occur). -/
def writtenYear (g3 : Option (List Char)) : Except PyExc Int :=
  match g3 with
  | some ys => pyInt ys
  | none => .error .attributeError

def writtenMonth (g0 : Option (List Char)) : Except PyExc Nat :=
  match g0 with
  | some ms => convertMonthToNumber ms
  | none => .error .attributeError

/-- `WrittenDateFormat.match_to_datetime`: groups are
`(month_str, numeric_day?, written_day?, year)`. -/
def writtenToDT (m : RMatch) : Except PyExc (Option DT) :=
  match m.groups with
  | [g0, g1, g2, g3] => do
    let day ← writtenDay g1 g2 m.mtext
    let y ← writtenYear g3
    let mo ← writtenMonth g0
    let dt ← mkDatetime y mo day
    pure (some dt)
  | _ => .error .indexError

/-- `WikiDateFormat.match_to_datetime`: groups are `(year, month, day)`. -/
def wikiToDT (m : RMatch) : Except PyExc (Option DT) :=
  match m.groups with
  | [some y, some mo, some d] => do
    let yi ← pyInt y
    let mi ← pyInt mo
    let di ← pyInt d
    let dt ← mkDatetime yi mi di
    pure (some dt)
  | _ => .error (.valueError "cannot unpack groups".data)

/-! ## The format registry (`_DATE_FORMATS`) and the drivers -/

/-- The seven `DateFormat` subclasses, as a closed enumeration. -/
inductive Fmt where
  | slash | dash | dmy | mdy | monthYear | written | wiki
deriving DecidableEq, Repr

/-- The `name` class attribute of each format. -/
def fmtName : Fmt → List Char
  | .slash => "SLASH_DMY_MDY".data
  | .dash => "DASH_YMD".data
  | .dmy => "DAY_MONTH_YEAR".data
  | .mdy => "MONTH_DAY_YEAR".data
  | .monthYear => "MONTH_YEAR".data
  | .written => "WRITTEN_DATE".data
  | .wiki => "WIKI_BIRTH_DATE".data

/-- The compiled `pattern` of each format, as a position matcher. -/
def fmtTryAt : Fmt → Option Char → List Char → Option TryRes
  | .slash => slashTryAt
  | .dash => dashTryAt
  | .dmy => dmyTryAt
  | .mdy => mdyTryAt
  | .monthYear => monthYearTryAt
  | .written => writtenTryAt
  | .wiki => wikiTryAt

/-- `cls.pattern.finditer(text)`. -/
def fmtFinditer (f : Fmt) (text : List Char) : List RMatch :=
  finditerF (fmtTryAt f) text

/-- `cls.match_to_datetime(match)`. -/
def fmtToDT : Fmt → RMatch → Except PyExc (Option DT)
  | .slash => slashToDT
  | .dash => dashToDT
  | .dmy => dmyToDT
  | .mdy => mdyToDT
  | .monthYear => monthYearToDT
  | .written => writtenToDT
  | .wiki => wikiToDT

/-- `_DATE_FORMATS`, in registration order. -/
def dateFormats : List Fmt :=
  [.slash, .dash, .dmy, .mdy, .monthYear, .written, .wiki]

/-- One entry of `list_dates`' results: the dict
`{"date_str": ..., "format": ..., "datetime": ...}`. -/
structure DetectedDict where
  date_str : List Char
  format : List Char
  datetime : DT
deriving DecidableEq, Repr

/-- The f-string `f"Error parsing date: {match.group(0)} - {err}"`. -/
def parseErrorMsg (mtext err : List Char) : List Char :=
  "Error parsing date: ".data ++ mtext ++ " - ".data ++ err

/-- The loop body of `DateFormat.list_dates` over an explicit match list,
with exception propagation: a raised `ValueError` becomes one error entry,
any other exception escapes. -/
def listDatesGoE (f : Fmt) :
    List RMatch → Except PyExc (List DetectedDict × List (List Char))
  | [] => .ok ([], [])
  | m :: ms =>
    match fmtToDT f m with
    | .ok (some dt) => do
      let (rs, es) ← listDatesGoE f ms
      .ok (⟨m.mtext, fmtName f, dt⟩ :: rs, es)
    | .ok none => listDatesGoE f ms
    | .error (.valueError emsg) => do
      let (rs, es) ← listDatesGoE f ms
      .ok (rs, parseErrorMsg m.mtext emsg :: es)
    | .error e => .error e

/-- `DateFormat.list_dates(text)` with exception propagation. -/
def listDatesE (f : Fmt) (text : List Char) :
    Except PyExc (List DetectedDict × List (List Char)) :=
  listDatesGoE f (fmtFinditer f text)

/-- The same loop, total: the escaping-exception branch is dead code (as
the `extract_dates` theorems show). -/
def listDatesGo (f : Fmt) :
    List RMatch → List DetectedDict × List (List Char)
  | [] => ([], [])
  | m :: ms =>
    let (rs, es) := listDatesGo f ms
    match fmtToDT f m with
    | .ok (some dt) => (⟨m.mtext, fmtName f, dt⟩ :: rs, es)
    | .ok none => (rs, es)
    | .error (.valueError emsg) => (rs, parseErrorMsg m.mtext emsg :: es)
    | .error _ => (rs, es)

/-- `DateFormat.list_dates(text)`: the `(results, errors)` pair. -/
def listDates (f : Fmt) (text : List Char) :
    List DetectedDict × List (List Char) :=
  listDatesGo f (fmtFinditer f text)

/-- `extract_dates(text)` with exception propagation: iterate the
registered formats, extending `all_results` and `all_errors`. -/
def extractDatesE (text : List Char) :
    Except PyExc (List DetectedDict × List (List Char)) :=
  dateFormats.foldlM
    (fun acc f => do
      let (rs, es) ← listDatesE f text
      .ok (acc.1 ++ rs, acc.2 ++ es))
    (([], []) : List DetectedDict × List (List Char))

/-- `extract_dates(text)`, total. -/
def extractDates (text : List Char) :
    List DetectedDict × List (List Char) :=
  dateFormats.foldl
    (fun acc f =>
      let (rs, es) := listDates f text
      (acc.1 ++ rs, acc.2 ++ es))
    ([], [])

/-! ## The `DateRange` model

Modelled from the spec: the `DateRange` class (canonical output type with
`from_parsed_string` and `to_string`), its `CalendarDate` boundaries and
the Range Parser are absent from `src/` — the test-suite imports
`DateRange` from `date_utils`, but the module in `src/` predates it.  The
definitions below follow spec sections 3 ("Data Model"), 4.3 ("Date Range
Model") and 4.4 ("Range Parser"), and reproduce every literal row of
`test_parse_string_to_date_range`.  Boundaries are stored already
flattened to day precision, as spec section 3 describes for constructed
ranges ("widens start/end to the implied boundary").  Parse failures
(spec step 5) are `none`. -/

/-- A flattened range boundary: signed year (negative = BC), month, day. -/
structure PDate where
  year : Int
  month : Nat
  day : Nat
deriving DecidableEq, Repr

/-- Chronological order on flattened boundaries (year, then month, then
day; a more negative year is earlier). -/
def pdLE (a b : PDate) : Bool :=
  a.year < b.year ||
    (a.year = b.year &&
      (a.month < b.month || (a.month = b.month && a.day ≤ b.day)))

/-- Modelled from the spec: `DateRange` — start/end boundaries, each with
its own approximate flag (`end` is `stop` here; `end` is reserved). -/
structure DateRange where
  start : PDate
  stop : PDate
  startApprox : Bool
  stopApprox : Bool
deriving DecidableEq, Repr

/-- Digit characters. -/
def digitChar : Nat → Char
  | 0 => '0' | 1 => '1' | 2 => '2' | 3 => '3' | 4 => '4'
  | 5 => '5' | 6 => '6' | 7 => '7' | 8 => '8' | 9 => '9'
  | _ => '*'

/-- Decimal rendering of a `Nat`, most significant digit first (fueled for
structural recursion; fuel `n + 1` always suffices). -/
def natToDigitsF : Nat → Nat → List Char
  | 0, _ => []
  | f + 1, n =>
    if n < 10 then [digitChar n]
    else natToDigitsF f (n / 10) ++ [digitChar (n % 10)]

def natToDigits (n : Nat) : List Char := natToDigitsF (n + 1) n

/-- `str(year)` for a signed year: BC years carry a leading `-`
(spec 4.3). -/
def intStr (y : Int) : List Char :=
  if y < 0 then '-' :: natToDigits (-y).toNat else natToDigits y.toNat

/-- Two-digit zero-padded month/day rendering. -/
def pad2 (n : Nat) : List Char :=
  if n < 10 then '0' :: natToDigits n else natToDigits n

/-- `YYYY/MM/DD` rendering of one boundary. -/
def pdStr (d : PDate) : List Char :=
  intStr d.year ++ '/' :: pad2 d.month ++ '/' :: pad2 d.day

/-- Modelled from the spec: `DateRange.to_string` — both boundaries,
approximate ones prefixed with `~`, joined by a spaced dash (every row of
`test_parse_string_to_date_range` shows both boundaries, a single exact
date appearing twice). -/
def DateRange.to_string (r : DateRange) : List Char :=
  (if r.startApprox then ['~'] else []) ++ pdStr r.start ++
    " - ".data ++ (if r.stopApprox then ['~'] else []) ++ pdStr r.stop

/-- Split at the first occurrence of `sep` (a nonempty literal). -/
def splitFirstSub (sep : List Char) : List Char → Option (List Char × List Char)
  | [] => none
  | c :: rest =>
    if (c :: rest).take sep.length = sep then
      some ([], (c :: rest).drop sep.length)
    else
      match splitFirstSub sep rest with
      | some (l, r) => some (c :: l, r)
      | none => none

/-- Split on every occurrence of one character. -/
def splitAllOn (ch : Char) : List Char → List (List Char)
  | [] => [[]]
  | c :: rest =>
    let r := splitAllOn ch rest
    if c = ch then [] :: r
    else
      match r with
      | h :: t => (c :: h) :: t
      | [] => [[c]]

/-- All digits and nonempty. -/
def allDigits (s : List Char) : Bool := !s.isEmpty && s.all isDigitC

/-- A year token: optional leading `-`, then digits. -/
def parseYearTok : List Char → Option Int
  | c :: ds =>
    if c = '-' then
      if allDigits ds then some (-(digitsVal ds : Int)) else none
    else if allDigits (c :: ds) then some (digitsVal (c :: ds) : Int)
    else none
  | [] => none

/-- A month/day token: digits only. -/
def parseNatTok (s : List Char) : Option Nat :=
  if allDigits s then some (digitsVal s) else none

/-- Modelled from the spec, step 1 of the Range Parser: detect a BC era
marker (`"BC"`/`"BCE"` token), strip it, and negate the year sign.  The
test row `"55 BC/03"` shows the marker may sit between the year and a
month part, so the first `" BCE"`/`" BC"` occurrence anywhere in the side
is removed. -/
def eraStrip (t : List Char) : List Char × Bool :=
  match splitFirstSub " BCE".data t with
  | some (l, r) => (l ++ r, true)
  | none =>
    match splitFirstSub " BC".data t with
    | some (l, r) => (l ++ r, true)
    | none => (t, false)

/-- Modelled from the spec, step 3: a decade suffix — digits followed by
`'s'`. -/
def decadeOf (t : List Char) : Option Nat :=
  match t.reverse with
  | c :: r =>
    if c = 's' && allDigits r.reverse then some (digitsVal r.reverse)
    else none
  | [] => none

/-- Modelled from the spec, steps 1-5 of the Range Parser applied to one
side of a range (or to a whole span with no separator): era marker, decade
suffix, then `/`-separated year / year-month / year-month-day (a second
token of three or more digits is year-like, making a year-pair range as in
the test row `"1611/1612 - 1615/1617"`).  Partial precision widens to the
boundary values with the approximate flags set (YEAR: Jan 1 - Dec 31;
MONTH: day 1 - last day); full day precision is exact.  Calendar-invalid
boundaries fail. -/
def sideParse (t : List Char) : Option DateRange :=
  let (t', bc) := eraStrip t
  let sign : Int := if bc then -1 else 1
  match decadeOf t' with
  | some n =>
    some ⟨⟨sign * n, 1, 1⟩, ⟨sign * n + 9, 12, 31⟩, true, true⟩
  | none =>
    match splitAllOn '/' t' with
    | [a] => do
      let y ← parseYearTok a
      pure ⟨⟨sign * y, 1, 1⟩, ⟨sign * y, 12, 31⟩, true, true⟩
    | [a, b] => do
      let y ← parseYearTok a
      if 3 ≤ b.length then do
        let y2 ← parseNatTok b
        pure ⟨⟨sign * y, 1, 1⟩, ⟨sign * y2, 12, 31⟩, true, true⟩
      else do
        let m ← parseNatTok b
        if 1 ≤ m && m ≤ 12 then
          pure ⟨⟨sign * y, m, 1⟩, ⟨sign * y, m, daysInMonth (sign * y) m⟩,
                true, true⟩
        else none
    | [a, b, c] => do
      let y ← parseYearTok a
      let m ← parseNatTok b
      let d ← parseNatTok c
      if 1 ≤ m && m ≤ 12 && 1 ≤ d && d ≤ daysInMonth (sign * y) m then
        pure ⟨⟨sign * y, m, d⟩, ⟨sign * y, m, d⟩, false, false⟩
      else none
    | _ => none

/-- Modelled from the spec, step 2: find a range separator — `" - "`,
`" to "`, or a bare `-` between two nonempty sub-expressions (test row
`"1810-1812"`). -/
def rangeSplit (s : List Char) : Option (List Char × List Char) :=
  match splitFirstSub " - ".data s with
  | some (l, r) => some (l, r)
  | none =>
    match splitFirstSub " to ".data s with
    | some (l, r) => some (l, r)
    | none =>
      match splitFirstSub ['-'] s with
      | some (l, r) => if !l.isEmpty && !r.isEmpty then some (l, r) else none
      | none => none

/-- Modelled from the spec: `DateRange.from_parsed_string` — split on a
range separator if present, parse each side, keep the left start and the
right end with each side's own approximate flag; fail when the flattened
start is chronologically after the end (spec step 5,
`InvertedRangeError`). -/
def DateRange.from_parsed_string (s : List Char) : Option DateRange :=
  match rangeSplit s with
  | some (l, r) => do
    let lr ← sideParse l
    let rr ← sideParse r
    if pdLE lr.start rr.stop then
      pure ⟨lr.start, rr.stop, lr.startApprox, rr.stopApprox⟩
    else none
  | none => do
    let rg ← sideParse s
    if pdLE rg.start rg.stop then pure rg else none

instance {e a : Type} [DecidableEq e] [DecidableEq a] :
    DecidableEq (Except e a) := fun x y =>
  match x, y with
  | .ok u, .ok v =>
    if h : u = v then .isTrue (by rw [h]) else .isFalse (by simp [h])
  | .error u, .error v =>
    if h : u = v then .isTrue (by rw [h]) else .isFalse (by simp [h])
  | .ok _, .error _ => .isFalse (by simp)
  | .error _, .ok _ => .isFalse (by simp)

/-- Calendar validity of a flattened boundary (month in range, day within
the month; the spec's `MalformedDateSpanError` condition). -/
def pdValidB (d : PDate) : Bool :=
  1 ≤ d.month && d.month ≤ 12 && 1 ≤ d.day &&
    d.day ≤ daysInMonth d.year d.month

/-- Left-pad a numeral to four digits. -/
def pad4 (n : Nat) : List Char :=
  let ds := natToDigits n
  List.replicate (4 - ds.length) '0' ++ ds

/-- The `YYYY/MM/DD` date string of a detected datetime, as the test-suite
renders single dates (four-digit zero-padded year). -/
def dtDateString (t : DT) : List Char :=
  pad4 t.year ++ '/' :: pad2 t.month ++ '/' :: pad2 t.day

/-- The registration rank of a format name in `_DATE_FORMATS`. -/
def nameRank (n : List Char) : Nat :=
  ((dateFormats.map fmtName).indexOf n)

/-! ## Helper lemmas: digits and decimal rendering -/

theorem digit_ne {c x : Char} (h : isDigitC c = true)
    (hx : isDigitC x = false) : c ≠ x := by
  intro he
  subst he
  rw [h] at hx
  cases hx

theorem charVal_digitChar : ∀ d, d < 10 → (digitChar d).toNat - 48 = d := by
  decide

theorem isDigitC_digitChar : ∀ d, d < 10 → isDigitC (digitChar d) = true := by
  decide

theorem digitsVal_concat (xs : List Char) (c : Char) :
    digitsVal (xs ++ [c]) = 10 * digitsVal xs + (c.toNat - 48) := by
  simp [digitsVal, List.foldl_append]

theorem digitsVal_natToDigitsF (f : Nat) :
    ∀ n, n < 10 ^ f → digitsVal (natToDigitsF f n) = n := by
  induction f with
  | zero =>
    intro n hn
    interval_cases n
    simp [natToDigitsF, digitsVal]
  | succ f ih =>
    intro n hn
    rw [natToDigitsF]
    by_cases h : n < 10
    · simp only [h, if_pos]
      simpa [digitsVal] using charVal_digitChar n h
    · simp only [h, if_neg, not_false_iff]
      rw [digitsVal_concat, ih (n / 10) ?_, charVal_digitChar (n % 10)
        (Nat.mod_lt n (by omega))]
      · omega
      · rw [Nat.div_lt_iff_lt_mul (by omega)]
        calc n < 10 ^ (f + 1) := hn
        _ = 10 ^ f * 10 := by ring

theorem lt_ten_pow_succ (n : Nat) : n < 10 ^ (n + 1) :=
  calc n < 2 ^ n := Nat.lt_two_pow n
  _ ≤ 10 ^ n := Nat.pow_le_pow_left (by omega) n
  _ ≤ 10 ^ (n + 1) := Nat.pow_le_pow_right (by omega) (by omega)

theorem digitsVal_natToDigits (n : Nat) : digitsVal (natToDigits n) = n :=
  digitsVal_natToDigitsF (n + 1) n (lt_ten_pow_succ n)

theorem natToDigitsF_digits (f : Nat) :
    ∀ n, (natToDigitsF f n).all isDigitC = true := by
  induction f with
  | zero => intro n; simp [natToDigitsF]
  | succ f ih =>
    intro n
    rw [natToDigitsF]
    by_cases h : n < 10
    · simp only [h, if_pos, List.all_cons, List.all_nil, Bool.and_true]
      exact isDigitC_digitChar n h
    · simp only [h, if_neg, not_false_iff, List.all_append, List.all_cons,
        List.all_nil, Bool.and_true]
      rw [ih (n / 10), isDigitC_digitChar (n % 10) (Nat.mod_lt n (by omega))]
      rfl

theorem natToDigits_digits (n : Nat) :
    (natToDigits n).all isDigitC = true :=
  natToDigitsF_digits (n + 1) n

theorem natToDigits_ne_nil (n : Nat) : natToDigits n ≠ [] := by
  rw [natToDigits, natToDigitsF]
  by_cases h : n < 10
  · simp [h]
  · simp only [h, if_neg, not_false_iff]
    intro he
    cases List.append_eq_nil.mp he with
    | intro _ h2 => cases h2

theorem allDigits_natToDigits (n : Nat) : allDigits (natToDigits n) = true := by
  rw [allDigits]
  simp [natToDigits_ne_nil n, natToDigits_digits n, List.isEmpty_iff]

/-! ## Helper lemmas: splitting and the range parser on simple inputs -/

theorem all_ne_of_digits {s : List Char} (h : s.all isDigitC = true)
    {x : Char} (hx : isDigitC x = false) : ∀ c ∈ s, c ≠ x :=
  fun c hc => digit_ne (List.all_eq_true.mp h c hc) hx

theorem splitFirstSub_none {c0 : Char} (sep' : List Char) :
    ∀ s : List Char, (∀ x ∈ s, x ≠ c0) →
      splitFirstSub (c0 :: sep') s = none := by
  intro s
  induction s with
  | nil => intro _; rfl
  | cons c rest ih =>
    intro h
    have hcond : ¬(List.take (c0 :: sep').length (c :: rest) = c0 :: sep') := by
      intro heq
      rw [List.length_cons, List.take_succ_cons] at heq
      exact h c (List.mem_cons_self c rest) (List.cons_eq_cons.mp heq).1
    rw [splitFirstSub.eq_def]
    simp only [if_neg hcond, ih (fun x hx => h x (List.mem_cons_of_mem c hx))]

theorem splitFirstSub_append {c0 : Char} (sep' : List Char) :
    ∀ A B : List Char, (∀ x ∈ A, x ≠ c0) →
      splitFirstSub (c0 :: sep') (A ++ (c0 :: sep') ++ B) = some (A, B) := by
  intro A
  induction A with
  | nil =>
    intro B _
    have hcond : List.take (sep'.length + 1) (c0 :: (sep' ++ B)) =
        c0 :: sep' := by
      rw [List.take_succ_cons, List.take_left]
    rw [List.nil_append, List.cons_append, splitFirstSub.eq_def]
    simp only [List.length_cons, if_pos hcond, List.drop_succ_cons,
      List.drop_left]
  | cons a A' ih =>
    intro B h
    have ha : a ≠ c0 := h a (List.mem_cons_self a A')
    have hcond : ¬(List.take (c0 :: sep').length
        (a :: (A' ++ c0 :: sep' ++ B)) = c0 :: sep') := by
      intro heq
      rw [List.length_cons, List.take_succ_cons] at heq
      exact ha (List.cons_eq_cons.mp heq).1
    rw [List.cons_append, List.cons_append, splitFirstSub.eq_def]
    simp only [if_neg hcond, ih B (fun x hx => h x (List.mem_cons_of_mem a hx))]

theorem splitAllOn_of_none (ch : Char) :
    ∀ s : List Char, (∀ x ∈ s, x ≠ ch) → splitAllOn ch s = [s] := by
  intro s
  induction s with
  | nil => intro _; rfl
  | cons c rest ih =>
    intro h
    rw [splitAllOn, ih (fun x hx => h x (List.mem_cons_of_mem c hx))]
    simp [h c (List.mem_cons_self c rest)]

theorem decadeOf_digits {s : List Char} (h : s.all isDigitC = true) :
    decadeOf s = none := by
  rw [decadeOf]
  cases hr : s.reverse with
  | nil => rfl
  | cons c r =>
    have hc : c ∈ s := by
      rw [← List.mem_reverse, hr]
      exact List.mem_cons_self c r
    have : c ≠ 's' :=
      all_ne_of_digits h (by decide) c hc
    simp [this]

theorem decadeOf_concat {s : List Char} (hne : s ≠ [])
    (h : s.all isDigitC = true) :
    decadeOf (s ++ ['s']) = some (digitsVal s) := by
  rw [decadeOf]
  have hr : (s ++ ['s']).reverse = 's' :: s.reverse := by
    simp
  rw [hr]
  simp [allDigits, h, List.isEmpty_iff, hne]

theorem parseYearTok_digits {s : List Char} (hne : s ≠ [])
    (h : s.all isDigitC = true) :
    parseYearTok s = some ((digitsVal s : Int)) := by
  cases s with
  | nil => exact absurd rfl hne
  | cons c cs =>
    have hc : isDigitC c = true :=
      List.all_eq_true.mp h c (List.mem_cons_self c cs)
    have hall : allDigits (c :: cs) = true := by
      simp only [allDigits, h, List.isEmpty_cons, Bool.not_false,
        Bool.and_true, Bool.true_and]
    rw [parseYearTok, if_neg (digit_ne hc (by decide)), if_pos hall]

theorem eraStrip_no_space {s : List Char} (h : ∀ c ∈ s, c ≠ ' ') :
    eraStrip s = (s, false) := by
  rw [eraStrip]
  rw [show " BCE".data = ' ' :: "BCE".data from rfl, splitFirstSub_none _ s h]
  rw [show " BC".data = ' ' :: "BC".data from rfl, splitFirstSub_none _ s h]

theorem rangeSplit_no_sep {s : List Char} (hsp : ∀ c ∈ s, c ≠ ' ')
    (hda : ∀ c ∈ s, c ≠ '-') : rangeSplit s = none := by
  rw [rangeSplit]
  rw [show " - ".data = ' ' :: "- ".data from rfl, splitFirstSub_none _ s hsp]
  rw [show " to ".data = ' ' :: "to ".data from rfl, splitFirstSub_none _ s hsp]
  rw [show ['-'] = '-' :: ([] : List Char) from rfl, splitFirstSub_none _ s hda]

theorem sideParse_digits {s : List Char} (hne : s ≠ [])
    (h : s.all isDigitC = true) :
    sideParse s =
      some ⟨⟨digitsVal s, 1, 1⟩, ⟨digitsVal s, 12, 31⟩, true, true⟩ := by
  rw [sideParse]
  rw [eraStrip_no_space (all_ne_of_digits h (by decide))]
  simp only []
  rw [decadeOf_digits h]
  rw [splitAllOn_of_none '/' s (all_ne_of_digits h (by decide))]
  simp only [parseYearTok_digits hne h, Option.bind_eq_bind, Option.some_bind]
  norm_num

theorem sideParse_decade {s : List Char} (hne : s ≠ [])
    (h : s.all isDigitC = true) :
    sideParse (s ++ ['s']) =
      some ⟨⟨digitsVal s, 1, 1⟩, ⟨(digitsVal s : Int) + 9, 12, 31⟩,
            true, true⟩ := by
  have hmem : ∀ c ∈ s ++ ['s'], c ≠ ' ' := by
    intro c hc
    rcases List.mem_append.mp hc with hc | hc
    · exact all_ne_of_digits h (by decide) c hc
    · rw [List.mem_singleton.mp hc]
      decide
  rw [sideParse, eraStrip_no_space hmem]
  simp only []
  rw [decadeOf_concat hne h]
  norm_num

theorem from_parsed_string_digits {s : List Char} (hne : s ≠ [])
    (h : s.all isDigitC = true) :
    DateRange.from_parsed_string s =
      some ⟨⟨digitsVal s, 1, 1⟩, ⟨digitsVal s, 12, 31⟩, true, true⟩ := by
  rw [DateRange.from_parsed_string,
    rangeSplit_no_sep (all_ne_of_digits h (by decide))
      (all_ne_of_digits h (by decide))]
  simp only [sideParse_digits hne h, Option.bind_eq_bind, Option.some_bind]
  simp [pdLE]

theorem from_parsed_string_decade {s : List Char} (hne : s ≠ [])
    (h : s.all isDigitC = true) :
    DateRange.from_parsed_string (s ++ ['s']) =
      some ⟨⟨digitsVal s, 1, 1⟩, ⟨(digitsVal s : Int) + 9, 12, 31⟩,
            true, true⟩ := by
  have hsp : ∀ c ∈ s ++ ['s'], c ≠ ' ' := by
    intro c hc
    rcases List.mem_append.mp hc with hc | hc
    · exact all_ne_of_digits h (by decide) c hc
    · rw [List.mem_singleton.mp hc]; decide
  have hda : ∀ c ∈ s ++ ['s'], c ≠ '-' := by
    intro c hc
    rcases List.mem_append.mp hc with hc | hc
    · exact all_ne_of_digits h (by decide) c hc
    · rw [List.mem_singleton.mp hc]; decide
  rw [DateRange.from_parsed_string, rangeSplit_no_sep hsp hda]
  simp only [sideParse_decade hne h, Option.bind_eq_bind, Option.some_bind]
  have hle : pdLE ⟨(digitsVal s : Int), 1, 1⟩
      ⟨(digitsVal s : Int) + 9, 12, 31⟩ = true := by
    simp only [pdLE]
    have : ((digitsVal s : Int)) < (digitsVal s : Int) + 9 := by omega
    simp [this]
  rw [if_pos hle]
  rfl

/-! ## Helper lemmas: round-tripping a rendered day-precision range -/

theorem pad2_digits (n : Nat) : (pad2 n).all isDigitC = true := by
  rw [pad2]
  by_cases h : n < 10
  · simp only [h, if_pos, List.all_cons, natToDigits_digits n,
      Bool.and_true]
    decide
  · simp only [h, if_neg, not_false_iff]
    exact natToDigits_digits n

theorem pad2_ne_nil (n : Nat) : pad2 n ≠ [] := by
  rw [pad2]
  by_cases h : n < 10
  · simp [h]
  · simp only [h, if_neg, not_false_iff]
    exact natToDigits_ne_nil n

theorem digitsVal_cons_zero (l : List Char) :
    digitsVal ('0' :: l) = digitsVal l := by
  show List.foldl _ (10 * 0 + ('0'.toNat - 48)) l = _
  norm_num
  rfl

theorem digitsVal_pad2 (n : Nat) : digitsVal (pad2 n) = n := by
  rw [pad2]
  by_cases h : n < 10
  · simp only [h, if_pos]
    rw [digitsVal_cons_zero, digitsVal_natToDigits]
  · simp only [h, if_neg, not_false_iff]
    exact digitsVal_natToDigits n

theorem parseNatTok_pad2 (n : Nat) : parseNatTok (pad2 n) = some n := by
  rw [parseNatTok, if_pos, digitsVal_pad2]
  rw [allDigits, pad2_digits]
  simp [List.isEmpty_iff, pad2_ne_nil n]

theorem parseYearTok_intStr (y : Int) : parseYearTok (intStr y) = some y := by
  by_cases hy : y < 0
  · rw [intStr, if_pos hy, parseYearTok, if_pos rfl, if_pos]
    · rw [digitsVal_natToDigits]
      have : (((-y).toNat : Int)) = -y := Int.toNat_of_nonneg (by omega)
      rw [this, neg_neg]
    · rw [allDigits, natToDigits_digits]
      simp [List.isEmpty_iff, natToDigits_ne_nil]
  · rw [intStr, if_neg hy,
      parseYearTok_digits (natToDigits_ne_nil _) (natToDigits_digits _),
      digitsVal_natToDigits]
    congr 1
    omega

theorem intStr_mem {y : Int} {c : Char} (hc : c ∈ intStr y) :
    isDigitC c = true ∨ c = '-' := by
  rw [intStr] at hc
  by_cases hy : y < 0
  · rw [if_pos hy] at hc
    rcases List.mem_cons.mp hc with hc | hc
    · exact Or.inr hc
    · exact Or.inl (List.all_eq_true.mp (natToDigits_digits _) c hc)
  · rw [if_neg hy] at hc
    exact Or.inl (List.all_eq_true.mp (natToDigits_digits _) c hc)

theorem pad2_mem {n : Nat} {c : Char} (hc : c ∈ pad2 n) :
    isDigitC c = true := by
  rw [pad2] at hc
  by_cases h : n < 10
  · rw [if_pos h] at hc
    rcases List.mem_cons.mp hc with hc | hc
    · rw [hc]; decide
    · exact List.all_eq_true.mp (natToDigits_digits _) c hc
  · rw [if_neg h] at hc
    exact List.all_eq_true.mp (natToDigits_digits _) c hc

theorem pdStr_mem {d : PDate} {c : Char} (hc : c ∈ pdStr d) :
    isDigitC c = true ∨ c = '/' ∨ c = '-' := by
  rw [pdStr] at hc
  rcases List.mem_append.mp hc with hc | hc
  · rcases List.mem_append.mp hc with hc | hc
    · rcases intStr_mem hc with h | h
      · exact Or.inl h
      · exact Or.inr (Or.inr h)
    · rcases List.mem_cons.mp hc with hc | hc
      · exact Or.inr (Or.inl hc)
      · exact Or.inl (pad2_mem hc)
  · rcases List.mem_cons.mp hc with hc | hc
    · exact Or.inr (Or.inl hc)
    · exact Or.inl (pad2_mem hc)

theorem pdStr_no_space {d : PDate} : ∀ c ∈ pdStr d, c ≠ ' ' := by
  intro c hc he
  subst he
  rcases pdStr_mem hc with h | h | h <;> cases h

theorem splitAllOn_append (ch : Char) :
    ∀ a rest : List Char, (∀ x ∈ a, x ≠ ch) →
      splitAllOn ch (a ++ ch :: rest) = a :: splitAllOn ch rest := by
  intro a
  induction a with
  | nil =>
    intro rest _
    rw [List.nil_append, splitAllOn, if_pos rfl]
  | cons x a' ih =>
    intro rest h
    rw [List.cons_append, splitAllOn,
      ih rest (fun z hz => h z (List.mem_cons_of_mem x hz))]
    simp [h x (List.mem_cons_self x a')]

theorem decadeOf_no_s {l : List Char} (h : ∀ c ∈ l, c ≠ 's') :
    decadeOf l = none := by
  rw [decadeOf]
  cases hr : l.reverse with
  | nil => rfl
  | cons c r =>
    have hc : c ∈ l := by
      rw [← List.mem_reverse, hr]
      exact List.mem_cons_self c r
    simp [h c hc]

theorem intStr_no_slash {y : Int} : ∀ c ∈ intStr y, c ≠ '/' := by
  intro c hc he
  subst he
  rcases intStr_mem hc with h | h
  · cases h
  · cases h

theorem pad2_no_slash {n : Nat} : ∀ c ∈ pad2 n, c ≠ '/' := by
  intro c hc he
  subst he
  cases pad2_mem hc

theorem splitAllOn_pdStr (d : PDate) :
    splitAllOn '/' (pdStr d) = [intStr d.year, pad2 d.month, pad2 d.day] := by
  have hshape : pdStr d =
      intStr d.year ++ '/' :: (pad2 d.month ++ '/' :: pad2 d.day) := by
    rw [pdStr, List.append_assoc, List.cons_append]
  rw [hshape, splitAllOn_append '/' _ _ intStr_no_slash,
    splitAllOn_append '/' _ _ pad2_no_slash,
    splitAllOn_of_none '/' _ pad2_no_slash]

theorem pdStr_no_s {d : PDate} : ∀ c ∈ pdStr d, c ≠ 's' := by
  intro c hc he
  subst he
  rcases pdStr_mem hc with h | h | h
  · cases h
  · cases h
  · cases h

theorem sideParse_pdStr (d : PDate) (hv : pdValidB d = true) :
    sideParse (pdStr d) = some ⟨d, d, false, false⟩ := by
  rw [sideParse, eraStrip_no_space pdStr_no_space]
  simp only []
  rw [decadeOf_no_s pdStr_no_s, splitAllOn_pdStr]
  simp only [parseYearTok_intStr, parseNatTok_pad2, Option.bind_eq_bind,
    Option.some_bind, one_mul]
  rw [if_pos]
  · simp
  · rw [pdValidB] at hv
    simpa using hv

theorem rangeSplit_at (A B : List Char) (hA : ∀ x ∈ A, x ≠ ' ') :
    rangeSplit (A ++ " - ".data ++ B) = some (A, B) := by
  rw [rangeSplit, show " - ".data = ' ' :: "- ".data from rfl,
    splitFirstSub_append _ A B hA]

theorem to_string_exact {r : DateRange} (h1 : r.startApprox = false)
    (h2 : r.stopApprox = false) :
    r.to_string = pdStr r.start ++ " - ".data ++ pdStr r.stop := by
  rw [DateRange.to_string, h1, h2]
  simp

/-! ## Claim theorems -/

/-- **C2**: for every year-only input (a nonempty digit string),
`DateRange.from_parsed_string` returns the range January 1 - December 31
of that year with both boundaries approximate, so that
`from_parsed_string("1810").to_string() = "~1810/01/01 - ~1810/12/31"`;
and for every decade input (digits followed by `s`) the result spans
`N/01/01` - `(N+9)/12/31`, both approximate. -/
theorem C2_year_and_decade_widening :
    (∀ s : List Char, s ≠ [] → s.all isDigitC = true →
      DateRange.from_parsed_string s =
        some ⟨⟨digitsVal s, 1, 1⟩, ⟨digitsVal s, 12, 31⟩, true, true⟩) ∧
    ((DateRange.from_parsed_string "1810".data).map DateRange.to_string =
      some "~1810/01/01 - ~1810/12/31".data) ∧
    (∀ s : List Char, s ≠ [] → s.all isDigitC = true →
      DateRange.from_parsed_string (s ++ ['s']) =
        some ⟨⟨digitsVal s, 1, 1⟩, ⟨(digitsVal s : Int) + 9, 12, 31⟩,
              true, true⟩) := by
  refine ⟨fun s hne h => from_parsed_string_digits hne h, ?_,
    fun s hne h => from_parsed_string_decade hne h⟩
  decide

/-- Witness for C2 at the concrete inputs `"1810"` and `"1930s"`. -/
theorem C2_witness :
    DateRange.from_parsed_string "1810".data =
      some ⟨⟨1810, 1, 1⟩, ⟨1810, 12, 31⟩, true, true⟩ ∧
    DateRange.from_parsed_string "1930s".data =
      some ⟨⟨1930, 1, 1⟩, ⟨1939, 12, 31⟩, true, true⟩ :=
  ⟨C2_year_and_decade_widening.1 "1810".data (by decide) (by decide),
   C2_year_and_decade_widening.2.2 "1930".data (by decide) (by decide)⟩

/-- **C8**: a `DateRange` whose boundaries are exact (day-precision,
neither approximate), calendar-valid and ordered renders with no `~`
marker, and re-parsing the rendered string restores the range exactly. -/
theorem C8_day_precision_roundtrip (r : DateRange)
    (h1 : r.startApprox = false) (h2 : r.stopApprox = false)
    (hv1 : pdValidB r.start = true) (hv2 : pdValidB r.stop = true)
    (hord : pdLE r.start r.stop = true) :
    '~' ∉ r.to_string ∧
      DateRange.from_parsed_string r.to_string = some r := by
  constructor
  · rw [to_string_exact h1 h2]
    intro hm
    rcases List.mem_append.mp hm with hm | hm
    · rcases List.mem_append.mp hm with hm | hm
      · rcases pdStr_mem hm with h | h | h
        · cases h
        · cases h
        · cases h
      · exact absurd hm (by decide)
    · rcases pdStr_mem hm with h | h | h
      · cases h
      · cases h
      · cases h
  · rw [to_string_exact h1 h2, DateRange.from_parsed_string,
      rangeSplit_at _ _ pdStr_no_space]
    simp only [sideParse_pdStr r.start hv1, sideParse_pdStr r.stop hv2,
      Option.bind_eq_bind, Option.some_bind]
    rw [if_pos hord]
    obtain ⟨rs, re, ra, rb⟩ := r
    simp only [] at h1 h2
    subst h1
    subst h2
    rfl

/-- Witness for C8 at the concrete range 1810/03/05 - 1812/05/07. -/
theorem C8_witness :
    '~' ∉ DateRange.to_string ⟨⟨1810, 3, 5⟩, ⟨1812, 5, 7⟩, false, false⟩ ∧
      DateRange.from_parsed_string
          (DateRange.to_string ⟨⟨1810, 3, 5⟩, ⟨1812, 5, 7⟩, false, false⟩) =
        some ⟨⟨1810, 3, 5⟩, ⟨1812, 5, 7⟩, false, false⟩ :=
  C8_day_precision_roundtrip ⟨⟨1810, 3, 5⟩, ⟨1812, 5, 7⟩, false, false⟩
    rfl rfl (by decide) (by decide) (by decide)

/-- **C4** (code bug): the source's `DayMonthYearFormat` has no BC-era
handling, so `extract_dates("12 July 100 BC")` matches only
`"12 July 100"` and parses it as the *positive* year 100 (date string
`"0100/07/12"`), while the test-suite in `src/test` expects `"-100/07/12"`
with a negative year.  (The spec-modelled `DateRange.from_parsed_string`
does give `"55 BC"` a negative year, as the claim states.) -/
theorem C4_bc_year_not_negated :
    extractDates "12 July 100 BC".data =
      ([⟨"12 July 100".data, "DAY_MONTH_YEAR".data, ⟨100, 7, 12⟩⟩], []) ∧
    (extractDates "12 July 100 BC".data).1.map (fun r => r.datetime.year) =
      [100] ∧
    dtDateString ⟨100, 7, 12⟩ = "0100/07/12".data ∧
    DateRange.from_parsed_string "55 BC".data =
      some ⟨⟨-55, 1, 1⟩, ⟨-55, 12, 31⟩, true, true⟩ := by
  refine ⟨by decide, by decide, by decide, by decide⟩

/-- **C5** (code bug): `MonthYearFormat`'s pattern spells its quantifier
`{2, 4}` with a space, which Python treats as the literal characters
`{2, 4}`; the matcher therefore never fires on `"March 1810"` (no match,
no error, from any format), though it does fire - always erroring - on
text containing the literal braces. -/
theorem C5_month_year_quantifier_literal :
    extractDates "March 1810".data = ([], []) ∧
    (listDates .monthYear "March 1810".data = ([], [])) ∧
    (listDates .monthYear "March 1{2, 4}x".data).2.length = 1 := by
  refine ⟨by decide, by decide, by decide⟩

theorem findTopdown_le (p : Nat → Bool) :
    ∀ n j, findTopdown p n = some j →
      p j = true ∧ ∀ j', j' ≤ n → p j' = true → j' ≤ j := by
  intro n
  induction n with
  | zero =>
    intro j h
    rw [findTopdown] at h
    by_cases h0 : p 0 = true
    · rw [if_pos h0] at h
      cases h
      exact ⟨h0, fun j' hle _ => hle⟩
    · rw [if_neg h0] at h
      cases h
  | succ n ih =>
    intro j h
    rw [findTopdown] at h
    by_cases hs : p (n + 1) = true
    · rw [if_pos hs] at h
      cases h
      exact ⟨hs, fun j' hle _ => hle⟩
    · rw [if_neg hs] at h
      obtain ⟨hp, hmax⟩ := ih j h
      refine ⟨hp, fun j' hle hpj => ?_⟩
      rcases Nat.lt_or_ge j' (n + 1) with hlt | hge
      · exact hmax j' (Nat.lt_succ_iff.mp hlt) hpj
      · have hj : j' = n + 1 := Nat.le_antisymm hle hge
        rw [hj] at hpj
        exact absurd hpj hs

/-- **C7 counterexample**: on
`"{{Birth date|1810|03|05|1900|04|06}}"` - a wiki template of the claimed
form `{{name|YYYY|MM|DD...}}` - the greedy `.*` makes the matcher capture
the *last* numeric triple: the only detected date is 1900/04/06, there is
no error, and no detected date equals 1810/03/05 as the claim ("the first
three pipe-separated numeric fields") requires. -/
theorem C7_wiki_first_triple_counterexample :
    (extractDates "{{Birth date|1810|03|05|1900|04|06}}".data).1.map
        (fun r => r.datetime) = [⟨1900, 4, 6⟩] ∧
    (extractDates "{{Birth date|1810|03|05|1900|04|06}}".data).2 = [] ∧
    (DT.mk 1810 3 5) ∉
      (extractDates "{{Birth date|1810|03|05|1900|04|06}}".data).1.map
        (fun r => r.datetime) := by
  refine ⟨by decide, by decide, by decide⟩

/-- **C7 amended**: the wiki-template matcher captures as year, month and
day the *last* pipe-separated numeric triple reachable by the greedy `.*`
(the chosen skip amount is maximal among all valid ones), and
`extract_dates("{{Birth date|1810|03|05}}")` returns exactly one detected
date, whose date string is `"1810/03/05"`. -/
theorem C7_wiki_template_last_triple :
    (∀ seg j, wikiChosen ('{' :: '{' :: seg) = some j →
      wikiOkAt seg j = true ∧
      ∀ j', j' ≤ seg.length → wikiOkAt seg j' = true → j' ≤ j) ∧
    extractDates "{{Birth date|1810|03|05}}".data =
      ([⟨"\x7b\x7bBirth date|1810|03|05".data, "WIKI_BIRTH_DATE".data,
         ⟨1810, 3, 5⟩⟩], []) ∧
    dtDateString ⟨1810, 3, 5⟩ = "1810/03/05".data := by
  refine ⟨fun seg j h => findTopdown_le (wikiOkAt seg) seg.length j h,
    by decide, by decide⟩

/-- Witness for C7's amended theorem: on the two-triple template the
chosen skip is 21, it is valid, and the skip 10 reaching the first triple
is also valid but smaller. -/
theorem C7_witness :
    wikiOkAt "Birth date|1810|03|05|1900|04|06\x7d\x7d".data 21 = true ∧
      wikiOkAt "Birth date|1810|03|05|1900|04|06\x7d\x7d".data 10 = true ∧
      (10 : Nat) ≤ 21 :=
  have h := C7_wiki_template_last_triple.1
    "Birth date|1810|03|05|1900|04|06\x7d\x7d".data 21 (by decide)
  ⟨h.1, by decide, h.2 10 (by decide) (by decide)⟩

/-- **C6**: for a `SLASH_DMY_MDY` match splitting into three numeric
parts `D1`, `D2`, `Y`, the conversion returns the month-first
interpretation `datetime(Y, D1, D2)` whenever it is calendar-valid (even
if day-first is also valid), falls back to the day-first interpretation
`datetime(Y, D2, D1)` only when month-first raises, and produces no date
when both are invalid. -/
theorem C6_slash_month_first_precedence (m : RMatch) (a b c : List Char)
    (d1 d2 y : Int) (hsplit : splitDashSlash m.mtext = [a, b, c])
    (ha : pyInt a = .ok d1) (hb : pyInt b = .ok d2)
    (hc : pyInt c = .ok y) :
    slashToDT m =
      .ok (if dtValid y d1 d2 then some ⟨y.toNat, d1.toNat, d2.toNat⟩
           else if dtValid y d2 d1 then some ⟨y.toNat, d2.toNat, d1.toNat⟩
           else none) := by
  rw [slashToDT, hsplit]
  by_cases h1 : dtValid y d1 d2 = true
  · simp [ha, hb, hc, mkDatetime, h1, catchVI, Bind.bind, Except.bind,
      Functor.map, Except.map, Pure.pure, Except.pure]
  · by_cases h2 : dtValid y d2 d1 = true
    · simp [ha, hb, hc, mkDatetime, h1, h2, catchVI, Bind.bind, Except.bind,
        Functor.map, Except.map, Pure.pure, Except.pure]
    · simp [ha, hb, hc, mkDatetime, h1, h2, catchVI, Bind.bind, Except.bind,
        Functor.map, Except.map, Pure.pure, Except.pure]

/-- Witness for C6: `"05/03/2000"` is valid under both orderings and the
month-first reading (May 3rd) is returned. -/
theorem C6_witness :
    slashToDT ⟨"05/03/2000".data, [], []⟩ = .ok (some ⟨2000, 5, 3⟩) := by
  have h := C6_slash_month_first_precedence ⟨"05/03/2000".data, [], []⟩
    "05".data "03".data "2000".data 5 3 2000
    (by decide) (by decide) (by decide) (by decide)
  rw [h]
  decide

/-! ## Ordering and error accounting in the drivers -/

theorem listDatesGo_format (f : Fmt) :
    ∀ ms : List RMatch, ∀ r ∈ (listDatesGo f ms).1, r.format = fmtName f := by
  intro ms
  induction ms with
  | nil => intro r hr; cases hr
  | cons m ms ih =>
    intro r hr
    rw [listDatesGo] at hr
    revert hr
    cases fmtToDT f m with
    | ok o =>
      cases o with
      | some dt =>
        intro hr
        rcases List.mem_cons.mp hr with hr | hr
        · rw [hr]
        · exact ih r hr
      | none => intro hr; exact ih r hr
    | error e =>
      cases e with
      | valueError msg => intro hr; exact ih r hr
      | indexError => intro hr; exact ih r hr
      | attributeError => intro hr; exact ih r hr

theorem extractDates_foldl (text : List Char) :
    ∀ (fs : List Fmt) (acc : List DetectedDict × List (List Char)),
      fs.foldl
        (fun acc f =>
          let (rs, es) := listDates f text
          (acc.1 ++ rs, acc.2 ++ es)) acc =
      (acc.1 ++ (fs.map (fun f => (listDates f text).1)).flatten,
       acc.2 ++ (fs.map (fun f => (listDates f text).2)).flatten) := by
  intro fs
  induction fs with
  | nil => intro acc; simp
  | cons f fs ih =>
    intro acc
    rw [List.foldl_cons, ih]
    simp [List.flatten]

/-- `extract_dates` is the per-format results and errors, concatenated in
registration order. -/
theorem extractDates_parts (text : List Char) :
    extractDates text =
      ((dateFormats.map (fun f => (listDates f text).1)).flatten,
       (dateFormats.map (fun f => (listDates f text).2)).flatten) := by
  rw [extractDates, extractDates_foldl text dateFormats ([], [])]
  simp

theorem pairwise_rank_join (text : List Char) :
    ∀ fs : List Fmt,
      fs.Pairwise (fun f g => nameRank (fmtName f) ≤ nameRank (fmtName g)) →
      ((fs.map (fun f => (listDates f text).1)).flatten).Pairwise
        (fun a b => nameRank a.format ≤ nameRank b.format) := by
  intro fs
  induction fs with
  | nil => intro _; simp
  | cons f fs ih =>
    intro hp
    rcases List.pairwise_cons.mp hp with ⟨hf, hp'⟩
    rw [List.map_cons]
    rw [show ((listDates f text).1 :: fs.map (fun f => (listDates f text).1)).flatten
        = (listDates f text).1 ++ (fs.map (fun f => (listDates f text).1)).flatten
      from by simp [List.flatten]]
    refine List.pairwise_append.mpr ⟨?_, ih hp', ?_⟩
    · refine List.pairwise_of_forall_mem_list ?_
      intro a ha b hb
      rw [listDatesGo_format f _ a ha, listDatesGo_format f _ b hb]
    · intro a ha b hb
      rcases List.mem_flatten.mp hb with ⟨l, hl, hbl⟩
      rcases List.mem_map.mp hl with ⟨g, hg, rfl⟩
      rw [listDatesGo_format f _ a ha, listDatesGo_format g _ b hbl]
      exact hf g hg

/-- **C9**: the list returned by `extract_dates` is the concatenation of
each registered matcher's results in `_DATE_FORMATS` order
(SLASH_DMY_MDY, DASH_YMD, DAY_MONTH_YEAR, MONTH_DAY_YEAR, MONTH_YEAR,
WRITTEN_DATE, WIKI_BIRTH_DATE), so every result of an earlier-registered
matcher precedes every result of a later-registered one regardless of
text position. -/
theorem C9_registration_order (text : List Char) :
    (extractDates text).1 =
      (dateFormats.map (fun f => (listDates f text).1)).flatten ∧
    (extractDates text).1.Pairwise
      (fun a b => nameRank a.format ≤ nameRank b.format) := by
  constructor
  · rw [extractDates_parts]
  · rw [extractDates_parts]
    refine pairwise_rank_join text dateFormats ?_
    decide

theorem listDatesGo_filterMap (f : Fmt) :
    ∀ ms : List RMatch,
      (listDatesGo f ms).2 =
        ms.filterMap (fun m =>
          match fmtToDT f m with
          | .error (.valueError e) => some (parseErrorMsg m.mtext e)
          | _ => none) ∧
      (listDatesGo f ms).1 =
        ms.filterMap (fun m =>
          match fmtToDT f m with
          | .ok (some dt) => some ⟨m.mtext, fmtName f, dt⟩
          | _ => none) := by
  intro ms
  induction ms with
  | nil => exact ⟨rfl, rfl⟩
  | cons m ms ih =>
    rw [listDatesGo, List.filterMap_cons, List.filterMap_cons]
    cases hdt : fmtToDT f m with
    | ok o =>
      cases o with
      | some dt => simp [ih.1, ih.2]
      | none => simp [ih.1, ih.2]
    | error e =>
      cases e with
      | valueError msg => simp [ih.1, ih.2]
      | indexError => simp [ih.1, ih.2]
      | attributeError => simp [ih.1, ih.2]

/-- **C3 counterexample**: on `"99/99/2000"` the SLASH_DMY_MDY pattern
produces one match, its conversion fails to yield a date (both orderings
are calendar-invalid, `match_to_datetime` returns `None`), yet
`extract_dates` reports *no* ParseError (and no date): a failed
conversion does not always produce an error entry. -/
theorem C3_silent_none_counterexample :
    fmtFinditer .slash "99/99/2000".data = [⟨"99/99/2000".data, [], []⟩] ∧
    fmtToDT .slash ⟨"99/99/2000".data, [], []⟩ = .ok none ∧
    extractDates "99/99/2000".data = ([], []) := by
  refine ⟨by decide, by decide, by decide⟩

/-- **C3 amended**: a match whose conversion *raises* (`ValueError`)
contributes exactly one ParseError entry embedding the matched text, a
match whose conversion returns a date contributes exactly one result, and
a match whose conversion returns `None` contributes nothing; each match
of each matcher is processed independently (the outputs are pointwise
`filterMap`s over the match list, and `extract_dates` concatenates them
over all registered matchers). -/
theorem C3_error_accounting (f : Fmt) (text : List Char) :
    (listDates f text).2 =
      (fmtFinditer f text).filterMap (fun m =>
        match fmtToDT f m with
        | .error (.valueError e) => some (parseErrorMsg m.mtext e)
        | _ => none) ∧
    (listDates f text).1 =
      (fmtFinditer f text).filterMap (fun m =>
        match fmtToDT f m with
        | .ok (some dt) => some ⟨m.mtext, fmtName f, dt⟩
        | _ => none) ∧
    (extractDates text).2 =
      (dateFormats.map (fun g => (listDates g text).2)).flatten := by
  refine ⟨(listDatesGo_filterMap f (fmtFinditer f text)).1,
    (listDatesGo_filterMap f (fmtFinditer f text)).2, ?_⟩
  rw [extractDates_parts]

/-! ## Inversion lemmas for the scan and the slash matcher -/

theorem mem_scanF (tryAt : Option Char → List Char → Option TryRes) :
    ∀ (fuel : Nat) (prev : Option Char) (cs : List Char) (m : RMatch),
      m ∈ scanF tryAt fuel prev cs →
      ∃ p r, tryAt p r = some (m.mtext, m.groups, m.rest) := by
  intro fuel
  induction fuel with
  | zero => intro prev cs m h; cases h
  | succ fuel ih =>
    intro prev cs m h
    simp only [scanF] at h
    revert h
    cases htry : tryAt prev cs with
    | some res =>
      obtain ⟨mt, gs, rest⟩ := res
      intro h
      rcases List.mem_cons.mp h with h | h
      · subst h
        exact ⟨prev, cs, htry⟩
      · exact ih _ _ m h
    | none =>
      cases cs with
      | nil => intro h; cases h
      | cons c cs' => intro h; exact ih _ _ m h

theorem mem_finditerF {tryAt : Option Char → List Char → Option TryRes}
    {text : List Char} {m : RMatch} (h : m ∈ finditerF tryAt text) :
    ∃ p r, tryAt p r = some (m.mtext, m.groups, m.rest) :=
  mem_scanF tryAt (text.length + 1) none text m h

theorem dTwoOne_some {α} {cs : List Char} {k : List Char → List Char → Option α}
    {x : α} (h : dTwoOne cs k = some x) :
    ∃ ds rest, (ds.length = 1 ∨ ds.length = 2) ∧ ds.all isDigitC = true ∧
      k ds rest = some x := by
  cases cs with
  | nil => rw [dTwoOne] at h; cases h
  | cons c1 tl =>
    cases tl with
    | nil =>
      rw [dTwoOne] at h
      by_cases hd : isDigitC c1 = true
      · rw [if_pos hd] at h
        exact ⟨[c1], [], Or.inl rfl, by simp [hd], h⟩
      · rw [if_neg hd] at h; cases h
    | cons c2 rest =>
      rw [dTwoOne] at h
      by_cases h1 : isDigitC c1 = true
      · rw [if_pos h1] at h
        by_cases h2 : isDigitC c2 = true
        · rw [if_pos h2] at h
          rcases (Option.orElse_eq_some' _ _ _).mp h with h' | ⟨_, h'⟩
          · exact ⟨[c1, c2], rest, Or.inr rfl, by simp [h1, h2], h'⟩
          · exact ⟨[c1], c2 :: rest, Or.inl rfl, by simp [h1], h'⟩
        · rw [if_neg h2] at h
          exact ⟨[c1], c2 :: rest, Or.inl rfl, by simp [h1], h⟩
      · rw [if_neg h1] at h; cases h

theorem sepDashSlash_some {α} {cs : List Char} {k : Char → List Char → Option α}
    {x : α} (h : sepDashSlash cs k = some x) :
    ∃ c rest, (c = '-' ∨ c = '/') ∧ k c rest = some x := by
  cases cs with
  | nil => rw [sepDashSlash] at h; cases h
  | cons c rest =>
    rw [sepDashSlash] at h
    by_cases hc : (c = '-' || c = '/') = true
    · rw [if_pos hc] at h
      rcases Bool.or_eq_true_iff.mp hc with h' | h'
      · exact ⟨c, rest, Or.inl (by simpa using h'), h⟩
      · exact ⟨c, rest, Or.inr (by simpa using h'), h⟩
    · rw [if_neg hc] at h; cases h

theorem dExact_some {α} {n : Nat} {cs : List Char}
    {k : List Char → List Char → Option α} {x : α}
    (h : dExact n cs k = some x) :
    ∃ run rest, run.length = n ∧ run.all isDigitC = true ∧
      k run rest = some x := by
  rw [dExact] at h
  by_cases hc : ((cs.take n).length = n && (cs.take n).all isDigitC) = true
  · rw [if_pos hc] at h
    rcases Bool.and_eq_true_iff.mp hc with ⟨h1, h2⟩
    exact ⟨cs.take n, cs.drop n, by simpa using h1, h2, h⟩
  · rw [if_neg hc] at h; cases h

/-- Inversion for the slash matcher: any successful attempt matched
`D{1,2} sep D{1,2} sep D{4}` with the boundary and lookahead satisfied
after the four year digits. -/
theorem slashTryAt_some {prev : Option Char} {cs mt rest : List Char}
    {gs : List (Option (List Char))}
    (h : slashTryAt prev cs = some (mt, gs, rest)) :
    ∃ a s1 b s2 y,
      mt = a ++ [s1] ++ b ++ [s2] ++ y ∧
      (a.length = 1 ∨ a.length = 2) ∧ a.all isDigitC = true ∧
      (s1 = '-' ∨ s1 = '/') ∧
      (b.length = 1 ∨ b.length = 2) ∧ b.all isDigitC = true ∧
      (s2 = '-' ∨ s2 = '/') ∧
      y.length = 4 ∧ y.all isDigitC = true ∧
      slashEndOk rest = true := by
  rw [slashTryAt] at h
  by_cases hp : prevIsWord prev = true
  · rw [if_pos hp] at h; cases h
  · rw [if_neg hp] at h
    obtain ⟨a, r1, ha, had, h⟩ := dTwoOne_some h
    obtain ⟨s1, r2, hs1, h⟩ := sepDashSlash_some h
    obtain ⟨b, r3, hb, hbd, h⟩ := dTwoOne_some h
    obtain ⟨s2, r4, hs2, h⟩ := sepDashSlash_some h
    obtain ⟨y, r5, hy, hyd, h⟩ := dExact_some h
    by_cases he : slashEndOk r5 = true
    · rw [if_pos he] at h
      simp only [Option.some.injEq, Prod.mk.injEq] at h
      obtain ⟨hmt, _, hrest⟩ := h
      subst hrest
      exact ⟨a, s1, b, s2, y, hmt.symm, ha, had, hs1, hb, hbd, hs2, hy,
        hyd, he⟩
    · rw [if_neg he] at h; cases h

/-- **C10**: every `SLASH_DMY_MDY` match decomposes as
`D{1,2} sep D{1,2} sep D{4}` - the year field always has exactly four
digits - and the text after the match never starts with `-` or `/` (nor a
word character); occurrences with 2- or 3-digit years or followed by a
further separator simply do not match, yielding neither a detected date
nor a parse error from this matcher. -/
theorem C10_slash_four_digit_year_lookahead :
    (∀ (text : List Char) (m : RMatch), m ∈ fmtFinditer .slash text →
      (∃ a s1 b s2 y, m.mtext = a ++ [s1] ++ b ++ [s2] ++ y ∧
        y.length = 4 ∧ y.all isDigitC = true ∧
        (a.length = 1 ∨ a.length = 2) ∧ a.all isDigitC = true ∧
        (b.length = 1 ∨ b.length = 2) ∧ b.all isDigitC = true ∧
        (s1 = '-' ∨ s1 = '/') ∧ (s2 = '-' ∨ s2 = '/')) ∧
      (∀ c cs', m.rest = c :: cs' →
        isWordC c = false ∧ c ≠ '-' ∧ c ≠ '/')) ∧
    listDates .slash "05/03/181".data = ([], []) ∧
    listDates .slash "05/03/1810-12".data = ([], []) ∧
    extractDates "05/03/181".data = ([], []) ∧
    extractDates "05/03/1810-12".data = ([], []) := by
  refine ⟨?_, by decide, by decide, by decide, by decide⟩
  intro text m hm
  obtain ⟨p, r, htry⟩ := mem_finditerF hm
  obtain ⟨a, s1, b, s2, y, hmt, ha, had, hs1, hb, hbd, hs2, hy, hyd, hend⟩ :=
    slashTryAt_some htry
  refine ⟨⟨a, s1, b, s2, y, hmt, hy, hyd, ha, had, hb, hbd, hs1, hs2⟩, ?_⟩
  intro c cs' hrest
  rw [hrest, slashEndOk] at hend
  simp only [Bool.and_eq_true, Bool.not_eq_true', decide_eq_true_eq] at hend
  exact ⟨hend.1.1, hend.1.2, hend.2⟩

/-- Witness for C10 at the match of `"05/03/2000"`. -/
theorem C10_witness :
    (∃ a s1 b s2 y,
      (RMatch.mk "05/03/2000".data [] []).mtext =
        a ++ [s1] ++ b ++ [s2] ++ y ∧
      y.length = 4 ∧ y.all isDigitC = true ∧
      (a.length = 1 ∨ a.length = 2) ∧ a.all isDigitC = true ∧
      (b.length = 1 ∨ b.length = 2) ∧ b.all isDigitC = true ∧
      (s1 = '-' ∨ s1 = '/') ∧ (s2 = '-' ∨ s2 = '/')) ∧
    (∀ c cs', (RMatch.mk "05/03/2000".data [] []).rest = c :: cs' →
      isWordC c = false ∧ c ≠ '-' ∧ c ≠ '/') :=
  C10_slash_four_digit_year_lookahead.1 "05/03/2000".data
    ⟨"05/03/2000".data, [], []⟩ (by decide)

/-! ## No exception escapes `list_dates`' `except ValueError` (C1) -/

theorem exceptBind_error {e' a b : Type}
    {x : Except e' a} {f : a → Except e' b} {e : e'}
    (h : (x >>= f) = .error e) :
    x = .error e ∨ ∃ v, x = .ok v ∧ f v = .error e := by
  cases x with
  | ok v => exact Or.inr ⟨v, rfl, by simpa [Bind.bind, Except.bind] using h⟩
  | error e2 =>
    left
    rw [show e2 = e from by simpa [Bind.bind, Except.bind] using h]

theorem pyInt_error {s : List Char} {e : PyExc} (h : pyInt s = .error e) :
    ∃ msg, e = .valueError msg := by
  rw [pyInt] at h
  split at h <;> split at h <;> cases h <;> exact ⟨_, rfl⟩

theorem convertMonth_error {s : List Char} {e : PyExc}
    (h : convertMonthToNumber s = .error e) : ∃ msg, e = .valueError msg := by
  rw [convertMonthToNumber] at h
  split at h
  · cases h
  · exact ⟨_, (Except.error.injEq .. ▸ h).symm⟩

theorem mkDatetime_error {y m d : Int} {e : PyExc}
    (h : mkDatetime y m d = .error e) : ∃ msg, e = .valueError msg := by
  rw [mkDatetime] at h
  split at h
  · cases h
  · exact ⟨_, (Except.error.injEq .. ▸ h).symm⟩

theorem catchVI_error {a : Type} {x : Except PyExc a}
    {k : Unit → Except PyExc a} {e : PyExc}
    (h : catchVI x k = .error e) :
    (x = .error .attributeError ∧ e = .attributeError) ∨ k () = .error e := by
  rw [catchVI.eq_def] at h
  split at h
  · cases h
  · exact Or.inr h
  · exact Or.inr h
  · rename_i e2 emain hne1 hne2
    cases emain with
    | valueError msg => exact absurd rfl (hne1 msg)
    | indexError => exact absurd rfl hne2
    | attributeError =>
      exact Or.inl ⟨rfl, ((Except.error.injEq .. ▸ h) : _ = e).symm ▸ rfl⟩

theorem slashInner_error {pa pb pc : List Char} {e : PyExc}
    (h : (do
        let y ← pyInt pc
        let a ← pyInt pa
        let b ← pyInt pb
        let dt ← mkDatetime y a b
        pure (some dt) : Except PyExc (Option DT)) = .error e) :
    ∃ msg, e = .valueError msg := by
  rcases exceptBind_error h with h | ⟨y, _, h⟩
  · exact pyInt_error h
  rcases exceptBind_error h with h | ⟨a, _, h⟩
  · exact pyInt_error h
  rcases exceptBind_error h with h | ⟨b, _, h⟩
  · exact pyInt_error h
  rcases exceptBind_error h with h | ⟨dt, _, h⟩
  · exact mkDatetime_error h
  · cases h

theorem slashToDT_error {m : RMatch} {e : PyExc}
    (h : slashToDT m = .error e) : ∃ msg, e = .valueError msg := by
  rw [slashToDT] at h
  split at h
  · rcases catchVI_error h with ⟨hx, _⟩ | h
    · rcases slashInner_error hx with ⟨msg, hmsg⟩
      cases hmsg
    · rcases catchVI_error h with ⟨hx, _⟩ | h
      · rcases slashInner_error hx with ⟨msg, hmsg⟩
        cases hmsg
      · cases h
  · cases h
    exact ⟨_, rfl⟩

theorem dashToDT_error {m : RMatch} {e : PyExc}
    (h : dashToDT m = .error e) : ∃ msg, e = .valueError msg := by
  rw [dashToDT] at h
  split at h
  · rcases catchVI_error h with ⟨hx, _⟩ | h
    · rcases slashInner_error hx with ⟨msg, hmsg⟩
      cases hmsg
    · cases h
  · cases h
    exact ⟨_, rfl⟩

theorem dmyToDT_error {m : RMatch} {e : PyExc}
    (h : dmyToDT m = .error e) : ∃ msg, e = .valueError msg := by
  rw [dmyToDT] at h
  split at h
  · rcases exceptBind_error h with h | ⟨mo, _, h⟩
    · exact convertMonth_error h
    rcases exceptBind_error h with h | ⟨y, _, h⟩
    · exact pyInt_error h
    rcases exceptBind_error h with h | ⟨d, _, h⟩
    · exact pyInt_error h
    rcases exceptBind_error h with h | ⟨dt, _, h⟩
    · exact mkDatetime_error h
    · cases h
  · cases h
    exact ⟨_, rfl⟩

theorem mdyToDT_error {m : RMatch} {e : PyExc}
    (h : mdyToDT m = .error e) : ∃ msg, e = .valueError msg := by
  rw [mdyToDT] at h
  split at h
  · rcases exceptBind_error h with h | ⟨mo, _, h⟩
    · exact convertMonth_error h
    rcases exceptBind_error h with h | ⟨y, _, h⟩
    · exact pyInt_error h
    rcases exceptBind_error h with h | ⟨d, _, h⟩
    · exact pyInt_error h
    rcases exceptBind_error h with h | ⟨dt, _, h⟩
    · exact mkDatetime_error h
    · cases h
  · cases h
    exact ⟨_, rfl⟩

theorem monthYearToDT_error {m : RMatch} {e : PyExc}
    (h : monthYearToDT m = .error e) : ∃ msg, e = .valueError msg := by
  rw [monthYearToDT] at h
  split at h
  · rcases exceptBind_error h with h | ⟨mo, _, h⟩
    · exact convertMonth_error h
    rcases exceptBind_error h with h | ⟨y, _, h⟩
    · exact pyInt_error h
    rcases exceptBind_error h with h | ⟨dt, _, h⟩
    · exact mkDatetime_error h
    · cases h
  · cases h
    exact ⟨_, rfl⟩

theorem wikiToDT_error {m : RMatch} {e : PyExc}
    (h : wikiToDT m = .error e) : ∃ msg, e = .valueError msg := by
  rw [wikiToDT] at h
  split at h
  · rcases exceptBind_error h with h | ⟨y, _, h⟩
    · exact pyInt_error h
    rcases exceptBind_error h with h | ⟨mo, _, h⟩
    · exact pyInt_error h
    rcases exceptBind_error h with h | ⟨d, _, h⟩
    · exact pyInt_error h
    rcases exceptBind_error h with h | ⟨dt, _, h⟩
    · exact mkDatetime_error h
    · cases h
  · cases h
    exact ⟨_, rfl⟩

/-! ## Inversion for the written-date matcher (its group shape) -/

theorem monthAltGo_some {α} {x : α} :
    ∀ {names : List (List Char)} {cs : List Char}
      {k : List Char → List Char → Option α},
      monthAltGo names cs k = some x → ∃ mo rest, k mo rest = some x := by
  intro names
  induction names with
  | nil => intro cs k h; rw [monthAltGo] at h; cases h
  | cons n ns ih =>
    intro cs k h
    rw [monthAltGo] at h
    by_cases hb : ciBegins n cs = true
    · rw [if_pos hb] at h
      rcases (Option.orElse_eq_some' _ _ _).mp h with h | ⟨_, h⟩
      · exact ⟨cs.take n.length, cs.drop n.length, h⟩
      · exact ih h
    · rw [if_neg hb] at h
      exact ih h

theorem wsPlus_some {α} {cs : List Char} {k : List Char → List Char → Option α}
    {x : α} (h : wsPlus cs k = some x) : ∃ t rest, k t rest = some x := by
  rw [wsPlus] at h
  split at h
  · cases h
  · exact ⟨_, _, h⟩

theorem ciLit_some {α} {pat cs : List Char}
    {k : List Char → List Char → Option α} {x : α}
    (h : ciLit pat cs k = some x) : ∃ t rest, k t rest = some x := by
  rw [ciLit] at h
  split at h
  · exact ⟨_, _, h⟩
  · cases h

theorem commaSpacePlus_some {α} {cs : List Char}
    {k : List Char → List Char → Option α} {x : α}
    (h : commaSpacePlus cs k = some x) : ∃ t rest, k t rest = some x := by
  rw [commaSpacePlus] at h
  split at h
  · cases h
  · exact ⟨_, _, h⟩

theorem dTwoFourEnd_some {α} {cs : List Char}
    {k : List Char → List Char → Option α} {x : α}
    (h : dTwoFourEnd cs k = some x) : ∃ t rest, k t rest = some x := by
  rw [dTwoFourEnd] at h
  split at h
  · split at h
    · exact ⟨_, _, h⟩
    · split at h
      · cases h
      · exact ⟨_, _, h⟩
  · cases h

theorem ordSuffix_some {α} {cs : List Char}
    {k : List Char → List Char → Option α} {x : α}
    (h : ordSuffix cs k = some x) : ∃ t rest, k t rest = some x := by
  rw [ordSuffix] at h
  rcases (Option.orElse_eq_some' _ _ _).mp h with h | ⟨_, h⟩
  · split at h
    · exact ⟨_, _, h⟩
    · cases h
  rcases (Option.orElse_eq_some' _ _ _).mp h with h | ⟨_, h⟩
  · split at h
    · exact ⟨_, _, h⟩
    · cases h
  rcases (Option.orElse_eq_some' _ _ _).mp h with h | ⟨_, h⟩
  · split at h
    · exact ⟨_, _, h⟩
    · cases h
  rcases (Option.orElse_eq_some' _ _ _).mp h with h | ⟨_, h⟩
  · split at h
    · exact ⟨_, _, h⟩
    · cases h
  · exact ⟨_, _, h⟩

theorem dayAlt_some {α} {cs : List Char}
    {k : List Char → Option (List Char) → Option (List Char) → List Char →
         Option α} {x : α} (h : dayAlt cs k = some x) :
    (∃ t dd rest, k t (some dd) none rest = some x) ∨
    (∃ t w rest, k t none (some w) rest = some x) := by
  rw [dayAlt] at h
  rcases (Option.orElse_eq_some' _ _ _).mp h with h | ⟨_, h⟩
  · obtain ⟨dd, r1, _, _, h⟩ := dTwoOne_some h
    obtain ⟨suf, r2, h⟩ := ordSuffix_some h
    exact Or.inl ⟨dd ++ suf, dd, r2, h⟩
  · split at h
    · cases h
    · exact Or.inr ⟨_, _, _, h⟩

/-- Any successful written-date match has exactly four groups: month, a
numeric day or a written day (exactly one of the two), and a year. -/
theorem writtenTryAt_groups {prev : Option Char} {cs mt rest : List Char}
    {gs : List (Option (List Char))}
    (h : writtenTryAt prev cs = some (mt, gs, rest)) :
    (∃ mo dd yr, gs = [some mo, some dd, none, some yr]) ∨
    (∃ mo w yr, gs = [some mo, none, some w, some yr]) := by
  rw [writtenTryAt] at h
  by_cases hp : prevIsWord prev = true
  · rw [if_pos hp] at h; cases h
  · rw [if_neg hp] at h
    obtain ⟨mo, r1, h⟩ := monthAltGo_some h
    obtain ⟨w1, r2, h⟩ := wsPlus_some h
    obtain ⟨the, r3, h⟩ := ciLit_some h
    obtain ⟨w2, r4, h⟩ := wsPlus_some h
    rcases dayAlt_some h with ⟨t, dd, r5, h⟩ | ⟨t, w, r5, h⟩
    · obtain ⟨w3, r6, h⟩ := commaSpacePlus_some h
      obtain ⟨yr, r7, h⟩ := dTwoFourEnd_some h
      simp only [Option.some.injEq, Prod.mk.injEq] at h
      exact Or.inl ⟨mo, dd, yr, h.2.1.symm⟩
    · obtain ⟨w3, r6, h⟩ := commaSpacePlus_some h
      obtain ⟨yr, r7, h⟩ := dTwoFourEnd_some h
      simp only [Option.some.injEq, Prod.mk.injEq] at h
      exact Or.inr ⟨mo, w, yr, h.2.1.symm⟩

/-- `WrittenDateFormat.match_to_datetime` raises only `ValueError` on the
group shapes its own pattern can produce. -/
theorem writtenDay_error {g1 g2 : Option (List Char)} {mtext : List Char}
    {e : PyExc}
    (hshape : (∃ dd, g1 = some dd ∧ g2 = none) ∨
      (∃ w, g1 = none ∧ g2 = some w))
    (h : writtenDay g1 g2 mtext = .error e) : ∃ msg, e = .valueError msg := by
  rcases hshape with ⟨dd, h1, h2⟩ | ⟨w, h1, h2⟩ <;> subst h1 <;> subst h2 <;>
    rw [writtenDay] at h
  · exact pyInt_error h
  · revert h
    split
    · intro h; cases h
    · intro h
      cases h
      exact ⟨_, rfl⟩

theorem writtenToDT_error_of_shape {m : RMatch} {e : PyExc}
    (hshape : (∃ mo dd yr, m.groups = [some mo, some dd, none, some yr]) ∨
      (∃ mo w yr, m.groups = [some mo, none, some w, some yr]))
    (h : writtenToDT m = .error e) : ∃ msg, e = .valueError msg := by
  rw [writtenToDT] at h
  have hday : (∃ msg, e = .valueError msg) ∨ True := Or.inr trivial
  rcases hshape with ⟨mo, dd, yr, hg⟩ | ⟨mo, w, yr, hg⟩ <;> rw [hg] at h
  · rcases exceptBind_error h with h | ⟨day, _, h⟩
    · exact writtenDay_error (Or.inl ⟨dd, rfl, rfl⟩) h
    rcases exceptBind_error h with h | ⟨y, _, h⟩
    · rw [writtenYear] at h
      exact pyInt_error h
    rcases exceptBind_error h with h | ⟨mon, _, h⟩
    · rw [writtenMonth] at h
      exact convertMonth_error h
    rcases exceptBind_error h with h | ⟨dt, _, h⟩
    · exact mkDatetime_error h
    · cases h
  · rcases exceptBind_error h with h | ⟨day, _, h⟩
    · exact writtenDay_error (Or.inr ⟨w, rfl, rfl⟩) h
    rcases exceptBind_error h with h | ⟨y, _, h⟩
    · rw [writtenYear] at h
      exact pyInt_error h
    rcases exceptBind_error h with h | ⟨mon, _, h⟩
    · rw [writtenMonth] at h
      exact convertMonth_error h
    rcases exceptBind_error h with h | ⟨dt, _, h⟩
    · exact mkDatetime_error h
    · cases h

/-- No `match_to_datetime` lets anything but a `ValueError` escape on the
matches its pattern produced. -/
theorem fmtToDT_safe (f : Fmt) (text : List Char) :
    ∀ m ∈ fmtFinditer f text, ∀ e, fmtToDT f m = .error e →
      ∃ msg, e = .valueError msg := by
  intro m hm e he
  cases f with
  | slash => exact slashToDT_error he
  | dash => exact dashToDT_error he
  | dmy => exact dmyToDT_error he
  | mdy => exact mdyToDT_error he
  | monthYear => exact monthYearToDT_error he
  | wiki => exact wikiToDT_error he
  | written =>
    obtain ⟨p, r, htry⟩ := mem_finditerF hm
    exact writtenToDT_error_of_shape (writtenTryAt_groups htry) he

theorem listDatesGoE_ok (f : Fmt) :
    ∀ ms : List RMatch,
      (∀ m ∈ ms, ∀ e, fmtToDT f m = .error e → ∃ msg, e = .valueError msg) →
      listDatesGoE f ms = .ok (listDatesGo f ms) := by
  intro ms
  induction ms with
  | nil => intro _; rfl
  | cons m ms ih =>
    intro hsafe
    have ihok := ih fun m' hm' => hsafe m' (List.mem_cons_of_mem m hm')
    rw [listDatesGoE, listDatesGo]
    cases hdt : fmtToDT f m with
    | ok o =>
      cases o with
      | some dt => rw [ihok]; rfl
      | none => rw [ihok]
    | error e =>
      rcases hsafe m (List.mem_cons_self m ms) e hdt with ⟨msg, hmsg⟩
      subst hmsg
      rw [ihok]
      rfl

theorem listDatesE_ok (f : Fmt) (text : List Char) :
    listDatesE f text = .ok (listDates f text) :=
  listDatesGoE_ok f (fmtFinditer f text) (fmtToDT_safe f text)

theorem extractDatesE_foldlM (text : List Char) :
    ∀ (fs : List Fmt) (acc : List DetectedDict × List (List Char)),
      fs.foldlM
        (fun acc f => do
          let (rs, es) ← listDatesE f text
          Except.ok (acc.1 ++ rs, acc.2 ++ es)) acc =
      .ok (fs.foldl
        (fun acc f =>
          let (rs, es) := listDates f text
          (acc.1 ++ rs, acc.2 ++ es)) acc) := by
  intro fs
  induction fs with
  | nil => intro acc; rfl
  | cons f fs ih =>
    intro acc
    rw [List.foldlM_cons, listDatesE_ok f text]
    simp only [Bind.bind, Except.bind]
    rw [List.foldl_cons]
    exact ih _

/-- **C1**: `extract_dates` never lets an exception escape: on every input
text the exception-propagating semantics returns `ok` with exactly the
two lists (detected dates, parse errors) of the total function. -/
theorem C1_extract_dates_never_raises (text : List Char) :
    extractDatesE text = .ok (extractDates text) := by
  rw [extractDatesE, extractDates]
  exact extractDatesE_foldlM text dateFormats ([], [])
